import Mathlib

/-!
Verification of the oinit CA core: the `config` package (host-group registry,
key store, validity parsing, host matching) and the `PostHostCertificate`
handler of `api/v1.go`.

Go strings are byte sequences; we model them as `List Char` (all strings
involved are ASCII) and translate the Go standard-library string operations
used by the source (`strings.HasPrefix`, `strings.CutPrefix`,
`strings.HasSuffix`, `strings.TrimSuffix`) to list operations.
-/

/-- A Go string, modelled as a list of characters. -/
abbrev GoString := List Char

/-- Convenience, turning a Lean string literal into a `GoString`. -/
def gs (s : String) : GoString := s.data

/-- `strings.HasPrefix(s, prefix)`. -/
def goHasPrefix (s pre : GoString) : Bool := pre.isPrefixOf s

/-- `strings.CutPrefix(s, prefix)`: `(s[len(prefix):], true)` when `s` starts
with `prefix`, else `(s, false)`. -/
def goCutPrefix (s pre : GoString) : GoString × Bool :=
  if pre.isPrefixOf s then (s.drop pre.length, true) else (s, false)

/-- `strings.HasSuffix(s, suffix)`. -/
def goHasSuffix (s suf : GoString) : Bool := suf.isSuffixOf s

/-- `strings.TrimSuffix(s, suffix)`. -/
def goTrimSuffix (s suf : GoString) : GoString :=
  if goHasSuffix s suf then s.take (s.length - suf.length) else s

/-- `config.matchesHost(host, host2)` from the config package: `host2` may be a
wildcard pattern `*.example.com`, which matches any string that ends in
`example.com` other than `example.com` itself; any other pattern matches
exactly. -/
def matchesHost (host host2 : GoString) : Bool :=
  if goHasPrefix host2 (gs "*.") then
    let root := (goCutPrefix host2 (gs "*.")).1
    goHasSuffix host root && host != root
  else
    host == host2

example : matchesHost (gs "a.example.com") (gs "*.example.com") = true := by decide
example : matchesHost (gs "example.com") (gs "*.example.com") = false := by decide
example : matchesHost (gs "example.com") (gs "example.com") = true := by decide
example : matchesHost (gs "b.a.example.com") (gs "*.example.com") = true := by decide
example : matchesHost (gs "badexample.com") (gs "*.example.com") = true := by decide
example : matchesHost (gs "x") (gs "*.") = true := by decide
example : matchesHost (gs "") (gs "*.") = false := by decide

/-!
## `time.ParseDuration`

`config.parseCertValidities` calls `time.ParseDuration`; we translate the Go
standard-library algorithm (sign, the special case `"0"`, repeated
`[0-9]*(\.[0-9]*)?unit` components, 64-bit overflow checks).  Durations are
counted in nanoseconds.  One caveat: Go accumulates the fractional part of a
component in `float64` (`uint64(float64(f) * (float64(unit)/scale))`); we use
exact integer arithmetic `f * unit / scale`, which agrees with the float
computation whenever that product is exactly representable — in particular on
every fraction-free duration string.
-/

/-- `time.leadingInt`: consume `[0-9]*`, accumulating into `x`; `none` models
the overflow error (`x > (1<<63)/10` before, or `x > 1<<63` after, a step). -/
def leadingIntGo (x : Nat) : GoString → Option (Nat × GoString)
  | [] => some (x, [])
  | c :: rest =>
    if c.toNat < 48 || 57 < c.toNat then some (x, c :: rest)
    else if x > 922337203685477580 then none
    else
      let y := x * 10 + (c.toNat - 48)
      if y > 9223372036854775808 then none
      else leadingIntGo y rest

/-- `time.leadingFraction`: consume `[0-9]*` after a decimal point, tracking
the value `x` and the power-of-ten `scale`; on overflow it keeps consuming
digits without accumulating (Go keeps `scale` in `float64`; the values reached
here, at most `10^19`, are all exactly representable). -/
def leadingFractionGo (x scale : Nat) (overflow : Bool) : GoString → Nat × Nat × GoString
  | [] => (x, scale, [])
  | c :: rest =>
    if c.toNat < 48 || 57 < c.toNat then (x, scale, c :: rest)
    else if overflow then leadingFractionGo x scale true rest
    else if x > 922337203685477580 then leadingFractionGo x scale true rest
    else
      let y := x * 10 + (c.toNat - 48)
      if y > 9223372036854775808 then leadingFractionGo x scale true rest
      else leadingFractionGo y (scale * 10) false rest

/-- Go's `unitMap`: nanoseconds per unit name. -/
def unitNanos (u : GoString) : Option Nat :=
  if u == gs "ns" then some 1
  else if u == gs "us" then some 1000
  else if u == gs "µs" then some 1000
  else if u == gs "μs" then some 1000
  else if u == gs "ms" then some 1000000
  else if u == gs "s" then some 1000000000
  else if u == gs "m" then some 60000000000
  else if u == gs "h" then some 3600000000000
  else none

/-- Scan the unit name: everything up to the next digit or `'.'`. -/
def takeUnit : GoString → GoString × GoString
  | [] => ([], [])
  | c :: rest =>
    if c == '.' || (48 ≤ c.toNat && c.toNat ≤ 57) then ([], c :: rest)
    else
      let (u, r) := takeUnit rest
      (c :: u, r)

/-- The `(\.[0-9]*)?` part of a component: after a decimal point, the
fraction value, its power-of-ten scale, the remaining input, and whether any
fraction digit was consumed. -/
def parseFraction : GoString → Nat × Nat × GoString × Bool
  | '.' :: s1 =>
    let fsr := leadingFractionGo 0 1 false s1
    (fsr.1, fsr.2.1, fsr.2.2, fsr.2.2.length != s1.length)
  | s1 => (0, 1, s1, false)

/-- The component loop of `time.ParseDuration`, accumulating nanoseconds in
`d`.  Each iteration consumes at least the (non-empty) unit name, so the
initial fuel `s.length + 1` can never run out. -/
def parseDurLoop : Nat → GoString → Nat → Option Nat
  | _, [], d => some d
  | 0, _ :: _, _ => none
  | fuel + 1, c :: s0, d =>
    let s := c :: s0
    if !(c == '.' || (48 ≤ c.toNat && c.toNat ≤ 57)) then none
    else
      match leadingIntGo 0 s with
      | none => none
      | some (v, s1) =>
        let pre := s1.length != s.length
        let fsp := parseFraction s1
        let f := fsp.1
        let scale := fsp.2.1
        let s2 := fsp.2.2.1
        let post := fsp.2.2.2
        if !pre && !post then none
        else
          let us := takeUnit s2
          let u := us.1
          let s3 := us.2
          if u == ([] : GoString) then none
          else
            match unitNanos u with
            | none => none
            | some unit =>
              if v > 9223372036854775808 / unit then none
              else
                let v1 := v * unit
                let v2 := if f > 0 then v1 + f * unit / scale else v1
                if f > 0 && decide (v2 > 9223372036854775808) then none
                else
                  let d1 := d + v2
                  if d1 > 9223372036854775808 then none
                  else parseDurLoop fuel s3 d1

/-- `time.ParseDuration`, returning the duration in nanoseconds (`none` is the
parse error).  The final negation mirrors Go exactly: a negative total of
`1<<63` wraps to itself, and a positive total above `1<<63 - 1` is an error. -/
def goParseDuration (s : GoString) : Option Int :=
  let signed : Bool × GoString :=
    match s with
    | c :: rest => if c == '-' || c == '+' then (c == '-', rest) else (false, s)
    | [] => (false, s)
  let neg := signed.1
  let s1 := signed.2
  if s1 == gs "0" then some 0
  else if s1 == ([] : GoString) then none
  else
    match parseDurLoop (s1.length + 1) s1 0 with
    | none => none
    | some d =>
      if neg then some (-(d : Int))
      else if d > 9223372036854775807 then none
      else some (d : Int)

/-!
`parseCertValidities` stores `uint64(dur.Seconds())`.  `Duration.Seconds()`
computes `float64(sec) + float64(nsec)/1e9` in IEEE binary64 arithmetic
(round-to-nearest-even), and the conversion to `uint64` truncates toward
zero.  Both `sec` (at most `2^63/10^9 < 2^34`) and `nsec` (below `10^9`) are
exactly representable, so the only two roundings are the division and the
addition; we carry them out exactly over the integers: scaling `nsec` by the
minimal power of two `2^k` with `nsec·2^k ≥ 2^52·10^9` puts the quotient into
`[2^52, 2^53)`, so rounding `nsec·2^k/10^9` to the nearest even integer `cm`
makes `cm/2^k` the correctly rounded binary64 quotient; the sum
`sec + cm/2^k` is then exactly the integer `t = sec·2^k + cm` scaled by
`2^k`, and one rounding of `t` to 53 significant bits yields the binary64
sum, whose floor (division by `2^k`) is the truncated conversion.  This
reproduces the float rounding: e.g. `"16777216s999999999ns"` yields
`16777217`, not `16777216`, seconds.
-/

/-- Round the rational `a / b` to the nearest integer, ties to even. -/
def rneDiv (a b : Nat) : Nat :=
  let q := a / b
  let r := a % b
  if b < 2 * r || (2 * r == b && q % 2 == 1) then q + 1 else q

/-- Fuel-driven floor of `log₂` (the fuel only bounds the recursion depth and
is in excess at every call site). -/
def floorLog2Aux : Nat → Nat → Nat
  | 0, _ => 0
  | fuel + 1, n => if n < 2 then 0 else floorLog2Aux fuel (n / 2) + 1

/-- `⌊log₂ n⌋` for `n ≥ 1` (the fuel `n` always suffices since `log₂ n ≤ n`). -/
def floorLog2 (n : Nat) : Nat := floorLog2Aux n n

/-- `⌈log₂ n⌉`: the least `k` with `n ≤ 2^k`. -/
def ceilLog2 (n : Nat) : Nat := if n ≤ 1 then 0 else floorLog2 (n - 1) + 1

/-- Round a positive integer (an exact binary64 sum scaled by a power of two)
to 53 significant bits, ties to even: values below `2^53` are exact, larger
ones are rounded at ulp `2^(⌊log₂ t⌋ - 52)`. -/
def rne53 (t : Nat) : Nat :=
  if t < 2 ^ 53 then t
  else rneDiv t (2 ^ (floorLog2 t - 52)) * 2 ^ (floorLog2 t - 52)

/-- `uint64(Duration(d).Seconds())` for `0 ≤ d < 2^63` nanoseconds, following
Go's binary64 evaluation of `float64(sec) + float64(nsec)/1e9` exactly (see
the section comment above). -/
def floatSecondsTruncPos (d : Nat) : Nat :=
  let sec := d / 1000000000
  let nsec := d % 1000000000
  if nsec == 0 then sec
  else
    let k := ceilLog2 ((2 ^ 52 * 1000000000 + nsec - 1) / nsec)
    let cm := rneDiv (nsec * 2 ^ k) 1000000000
    rne53 (sec * 2 ^ k + cm) / 2 ^ k

/-- `uint64(d.Seconds())` for a duration of `d` nanoseconds.  For negative
values the Go conversion is implementation-dependent; we model the amd64
behaviour (truncate to `int64`, reinterpret as `uint64`); the float magnitude
is sign-symmetric, so it is computed on `|d|`. -/
def goDurationSecondsUint64 (d : Int) : Nat :=
  if 0 ≤ d then floatSecondsTruncPos d.toNat
  else (2 ^ 64 - floatSecondsTruncPos (-d).toNat) % 2 ^ 64

example : goParseDuration (gs "1h") = some 3600000000000 := by decide
example : goParseDuration (gs "0") = some 0 := by decide
example : goParseDuration (gs "0s") = some 0 := by decide
example : goParseDuration (gs "1h30m") = some 5400000000000 := by decide
example : goParseDuration (gs "1.5h") = some 5400000000000 := by decide
example : goParseDuration (gs "100ms") = some 100000000 := by decide
example : goParseDuration (gs "abc") = none := by decide
example : goParseDuration (gs "") = none := by decide
example : goParseDuration (gs "-1h") = some (-3600000000000) := by decide
example : goParseDuration (gs "token") = none := by decide
example : goDurationSecondsUint64 3600000000000 = 3600 := by decide
example : goDurationSecondsUint64 100000000 = 0 := by decide
example : goDurationSecondsUint64 999999999 = 0 := by decide
example : goDurationSecondsUint64 123456789123456789 = 123456789 := by decide
example : goDurationSecondsUint64 16777216999999999 = 16777217 := by decide
example : goDurationSecondsUint64 (-3600000000000) = 2 ^ 64 - 3600 := by decide

/-!
## The `config` package data model

Key handles are opaque (`interface{}` / `ssh.PublicKey` in Go); we keep them
as type parameters `PrivK` / `PubK` and model Go's nil interfaces as `none`.
The parsed INI file is modelled as its list of sections (in file order, the
`DEFAULT` section included, as `ini.v1`'s `Sections()` returns it); reading a
key file and parsing it is an oracle `GoString → Except Unit _`.
-/

/-- `config.DefaultOptions`. -/
structure DefaultOptions where
  PathHostCAPrivateKey : GoString
  PathHostCAPublicKey : GoString
  PathUserCAPrivateKey : GoString
  PathUserCAPublicKey : GoString
  CertValidity : GoString
  deriving DecidableEq, Repr

/-- `config.Keys`; the fields are nil (`none`) until `loadKeys` fills them. -/
structure Keys (PrivK PubK : Type) where
  HostCAPrivateKey : Option PrivK
  HostCAPublicKey : Option PubK
  UserCAPrivateKey : Option PrivK
  UserCAPublicKey : Option PubK
  deriving DecidableEq, Repr

/-- `config.HostGroup`.  `Hosts` is a Go map `pattern ↦ endpoint URL`; we keep
the entry list (lookup ignores order, and iteration order is unspecified in
Go — the list fixes one admissible order). -/
structure HostGroup (PrivK PubK : Type) where
  opts : DefaultOptions
  keys : Keys PrivK PubK
  CertDuration : Nat
  Name : GoString
  Hosts : List (GoString × GoString)
  deriving DecidableEq, Repr

/-- `config.Config`. -/
structure Config (PrivK PubK : Type) where
  HostGroups : List (HostGroup PrivK PubK)
  deriving DecidableEq, Repr

/-- `config.HostInfo`. -/
structure HostInfo (PrivK PubK : Type) where
  Name : GoString
  URL : GoString
  CertDuration : Nat
  keys : Keys PrivK PubK
  deriving DecidableEq, Repr

/-- One section of the parsed INI file. -/
structure IniSection where
  Name : GoString
  entries : List (GoString × GoString)
  deriving DecidableEq, Repr

/-- The parsed INI file: its sections in order, the default section included. -/
structure IniFile where
  sections : List IniSection
  deriving DecidableEq, Repr

/-- `ini.DefaultSection`. -/
def iniDefaultSection : GoString := gs "DEFAULT"

/-- Look a key up in a section's entry list (INI keys are unique per section). -/
def iniGet (entries : List (GoString × GoString)) (k : GoString) : Option GoString :=
  (entries.find? (fun e => e.1 == k)).map (fun e => e.2)

/-- One field of `ini.v1`'s `MapTo` into a string field: the section's value
overrides the current value when the key is present with a non-empty value
(`ini.v1` skips empty string values). -/
def mergeField (cur : GoString) (v : Option GoString) : GoString :=
  match v with
  | some s => if s == ([] : GoString) then cur else s
  | none => cur

/-- `section.MapTo(&opts)` for the five tagged fields of `DefaultOptions`. -/
def mapToOpts (entries : List (GoString × GoString)) (init : DefaultOptions) : DefaultOptions :=
  { PathHostCAPrivateKey := mergeField init.PathHostCAPrivateKey (iniGet entries (gs "host-ca-privkey"))
    PathHostCAPublicKey := mergeField init.PathHostCAPublicKey (iniGet entries (gs "host-ca-pubkey"))
    PathUserCAPrivateKey := mergeField init.PathUserCAPrivateKey (iniGet entries (gs "user-ca-privkey"))
    PathUserCAPublicKey := mergeField init.PathUserCAPublicKey (iniGet entries (gs "user-ca-pubkey"))
    CertValidity := mergeField init.CertValidity (iniGet entries (gs "cert-validity")) }

/-- The zero value of `DefaultOptions`, as Go declares `var defOptions`. -/
def zeroOptions : DefaultOptions := ⟨[], [], [], [], []⟩

/-- Is this entry key one of the five reserved option keys? -/
def isOptionKey (k : GoString) : Bool :=
  k == gs "host-ca-privkey" || k == gs "host-ca-pubkey" ||
    k == gs "user-ca-privkey" || k == gs "user-ca-pubkey" || k == gs "cert-validity"

/-- The four key-path fields or the validity field empty after merging. -/
def missingOption (o : DefaultOptions) : Bool :=
  o.PathHostCAPrivateKey == ([] : GoString) || o.PathHostCAPublicKey == ([] : GoString) ||
    o.PathUserCAPrivateKey == ([] : GoString) || o.PathUserCAPublicKey == ([] : GoString) ||
    o.CertValidity == ([] : GoString)

/-- The section loop of `config.LoadConfig` (lines 134–181): skip the default
section; prefill a group's options with the global values and let the section
override them; keep the non-option entries as the host map; fail at the first
group with a missing required option. -/
def loadGroups (PrivK PubK : Type) (defOpts : DefaultOptions) :
    List IniSection → Except GoString (List (HostGroup PrivK PubK))
  | [] => .ok []
  | sec :: rest =>
    if sec.Name == iniDefaultSection then loadGroups PrivK PubK defOpts rest
    else
      let opts := mapToOpts sec.entries defOpts
      let hosts := sec.entries.filter (fun e => !isOptionKey e.1)
      if missingOption opts then
        .error (gs "missing option in hostgroup " ++ sec.Name)
      else
        match loadGroups PrivK PubK defOpts rest with
        | .error e => .error e
        | .ok groups =>
          .ok ({ opts := opts, keys := ⟨none, none, none, none⟩, CertDuration := 0,
                 Name := sec.Name, Hosts := hosts } :: groups)

/-- The deduplication maps of `config.loadKeys` (`uniqPubKeys`/`uniqPrivKeys`),
modelled as association lists. -/
abbrev KeyCache (K : Type) := List (GoString × K)

/-- Go map read `cache[path]`: `none` models the zero value for a missing key. -/
def cacheGet {K : Type} (c : KeyCache K) (p : GoString) : Option K :=
  (c.find? (fun e => e.1 == p)).map (fun e => e.2)

/-- One inner loop of `config.loadKeys`: for each path, skip it when already
cached, else parse it (aborting on failure) and insert.  `log` records the
paths actually handed to the parse oracle, to state that no path is ever
parsed twice. -/
def ensurePaths {K : Type} (parse : GoString → Except Unit K) (c : KeyCache K)
    (log : List GoString) : List GoString → Except Unit (KeyCache K × List GoString)
  | [] => .ok (c, log)
  | p :: ps =>
    match cacheGet c p with
    | some _ => ensurePaths parse c log ps
    | none =>
      match parse p with
      | .error e => .error e
      | .ok k => ensurePaths parse ((p, k) :: c) (log ++ [p]) ps

/-- `config.loadKeys` (lines 194–232): walk the groups, populating the two
deduplication caches from the four configured paths of each group, then assign
that group's `Keys` fields by map lookup.  Returns the rewritten groups, the
final caches and the parse logs. -/
def loadKeysGo {PrivK PubK : Type} (pp : GoString → Except Unit PubK)
    (pv : GoString → Except Unit PrivK) :
    List (HostGroup PrivK PubK) → KeyCache PubK → KeyCache PrivK →
    List GoString → List GoString →
    Except Unit (List (HostGroup PrivK PubK) × KeyCache PubK × KeyCache PrivK ×
      List GoString × List GoString)
  | [], cpub, cpriv, plog, vlog => .ok ([], cpub, cpriv, plog, vlog)
  | g :: rest, cpub, cpriv, plog, vlog =>
    match ensurePaths pp cpub plog [g.opts.PathHostCAPublicKey, g.opts.PathUserCAPublicKey] with
    | .error e => .error e
    | .ok (cpub1, plog1) =>
      match ensurePaths pv cpriv vlog [g.opts.PathHostCAPrivateKey, g.opts.PathUserCAPrivateKey] with
      | .error e => .error e
      | .ok (cpriv1, vlog1) =>
        let g1 := { g with
          keys := { HostCAPublicKey := cacheGet cpub1 g.opts.PathHostCAPublicKey
                    UserCAPublicKey := cacheGet cpub1 g.opts.PathUserCAPublicKey
                    HostCAPrivateKey := cacheGet cpriv1 g.opts.PathHostCAPrivateKey
                    UserCAPrivateKey := cacheGet cpriv1 g.opts.PathUserCAPrivateKey } }
        match loadKeysGo pp pv rest cpub1 cpriv1 plog1 vlog1 with
        | .error e => .error e
        | .ok (rest1, cp, cv, lp, lv) => .ok (g1 :: rest1, cp, cv, lp, lv)

/-- `config.parseCertValidities` (lines 234–252): the literal `"token"` maps to
duration 0; anything else must parse as a Go duration, whose `Seconds()` is
converted to `uint64`. -/
def parseCertValiditiesGo {PrivK PubK : Type} :
    List (HostGroup PrivK PubK) → Except Unit (List (HostGroup PrivK PubK))
  | [] => .ok []
  | g :: rest =>
    if g.opts.CertValidity == gs "token" then
      match parseCertValiditiesGo rest with
      | .error e => .error e
      | .ok rest1 => .ok ({ g with CertDuration := 0 } :: rest1)
    else
      match goParseDuration g.opts.CertValidity with
      | none => .error ()
      | some dur =>
        match parseCertValiditiesGo rest with
        | .error e => .error e
        | .ok rest1 => .ok ({ g with CertDuration := goDurationSecondsUint64 dur } :: rest1)

/-- The default section's entries of a parsed INI file (`cfg.MapTo` maps it). -/
def defaultEntries (file : IniFile) : List (GoString × GoString) :=
  ((file.sections.find? (fun sec => sec.Name == iniDefaultSection)).map
    (fun sec => sec.entries)).getD []

/-- `config.LoadConfig` (lines 120–192), over an already-parsed INI file and
two key-file parse oracles: map the global section, run the section loop, load
and deduplicate keys, then resolve validities. -/
def LoadConfig (PrivK PubK : Type) (file : IniFile) (pp : GoString → Except Unit PubK)
    (pv : GoString → Except Unit PrivK) : Except GoString (Config PrivK PubK) :=
  let defOpts := mapToOpts (defaultEntries file) zeroOptions
  match loadGroups PrivK PubK defOpts file.sections with
  | .error e => .error e
  | .ok groups =>
    match loadKeysGo pp pv groups [] [] [] [] with
    | .error _ => .error (gs "could not open and parse keys")
    | .ok (groups1, _, _, _, _) =>
      match parseCertValiditiesGo groups1 with
      | .error _ => .error (gs "could not parse certificate validities")
      | .ok groups2 => .ok ⟨groups2⟩

/-- `config.ERR_HOST_NOT_FOUND`. -/
def ERR_HOST_NOT_FOUND : GoString := gs "host not found in config"

/-- The inner pattern loop of `Config.GetInfo` over one group's host map. -/
def findHost (host : GoString) :
    List (GoString × GoString) → Option (GoString × GoString)
  | [] => none
  | (pat, url) :: rest =>
    if matchesHost host pat then some (pat, url) else findHost host rest

/-- The outer group loop of `Config.GetInfo`. -/
def getInfoGroups {PrivK PubK : Type} (host : GoString) :
    List (HostGroup PrivK PubK) → Option (HostInfo PrivK PubK)
  | [] => none
  | g :: rest =>
    match findHost host g.Hosts with
    | some (pat, url) =>
      some { Name := pat, URL := url, CertDuration := g.CertDuration, keys := g.keys }
    | none => getInfoGroups host rest

/-- `Config.GetInfo` (lines 298–313): first group, first matching pattern
within it, otherwise the host-not-found error. -/
def Config.GetInfo {PrivK PubK : Type} (c : Config PrivK PubK) (host : GoString) :
    Except GoString (HostInfo PrivK PubK) :=
  match getInfoGroups host c.HostGroups with
  | some info => .ok info
  | none => .error ERR_HOST_NOT_FOUND

/-- Modelled from the spec: the API layer's `Config.GetMotleyCueURL` is not in
the sources; §4.2 specifies resolution as `resolve(host) → HostInfo |
Error(HostNotFound)`, of which this returns the endpoint URL. -/
def Config.GetMotleyCueURL {PrivK PubK : Type} (c : Config PrivK PubK) (host : GoString) :
    Except GoString GoString :=
  (c.GetInfo host).map (fun info => info.URL)

/-- Modelled from the spec: the API layer's `Config.GetKeys` is not in the
sources; §4.2 specifies resolution as `resolve(host) → HostInfo |
Error(HostNotFound)`, of which this returns the matched group's key pairs. -/
def Config.GetKeys {PrivK PubK : Type} (c : Config PrivK PubK) (host : GoString) :
    Except GoString (Keys PrivK PubK) :=
  (c.GetInfo host).map (fun info => info.keys)

/-!
## The `api` package: `PostHostCertificate`

The handler's collaborators — the `ssh` library calls, the repository's
`generateUserCertificate` / `validateUserCertificate` (whose sources are not
part of this corpus) and the `libmotleycue` HTTP client — are oracles gathered
in `V1Env`; the handler's own control flow is translated line by line.  The
handler also returns the list of engine calls it made, so that "X is never
invoked" claims can be stated.
-/

/-- Modelled from the spec: `libmotleycue.ApiUserStatus`; §6 specifies the
status endpoint's verdict as one of `not_deployed`, `deployed`, `suspended`
(or an error). -/
structure UserStatus where
  State : GoString
  deriving DecidableEq, Repr

/-- Modelled from the spec: `libmotleycue.StateNotDeployed`. -/
def StateNotDeployed : GoString := gs "not_deployed"

/-- Modelled from the spec: `libmotleycue.StateDeployed`. -/
def StateDeployed : GoString := gs "deployed"

/-- Modelled from the spec: `libmotleycue.StateSuspended`. -/
def StateSuspended : GoString := gs "suspended"

/-- The error-message constants of `api/v1.go`. -/
def ERR_BAD_BODY : String := "Request body is malformed."

def ERR_UNKNOWN_HOST : String := "Unknown host."

def ERR_UNAUTHORIZED : String := "User is not authorized or suspended."

def ERR_INTERNAL_ERROR : String := "Internal server error."

def statusBadRequest : Nat := 400

def statusUnauthorized : Nat := 401

def statusCreated : Nat := 201

def statusInternalServerError : Nat := 500

/-- The JSON body the handler writes: an `ApiResponseError` or an
`ApiResponseCertificate`. -/
inductive ApiResponse where
  | err (msg : String)
  | certificate (cert : GoString)
  deriving DecidableEq, Repr

/-- An HTTP status code paired with the response body. -/
structure HttpResult where
  status : Nat
  response : ApiResponse
  deriving DecidableEq, Repr

/-- The engine calls `PostHostCertificate` can make, in order of occurrence. -/
inductive CAEvent where
  | getUserStatus
  | generateCert
  | newSigner
  | signCert
  | validate (ok : Bool)
  deriving DecidableEq, Repr

/-- `FormHostCertificate`: the bound JSON body. -/
structure FormHostCertificate where
  Pubkey : GoString
  Token : GoString
  deriving DecidableEq, Repr

/-- An inbound request after binding: `none` models a binding failure of the
URI parameter (`UriHost`) or of the JSON body. -/
structure Request where
  hostBind : Option GoString
  bodyBind : Option FormHostCertificate
  deriving DecidableEq, Repr

/-- The handler's collaborators. `PubK`, `PrivK`, `Cert` and `Signer` are the
opaque `ssh` library types; `signCert` returns the certificate with its
signature filled in (Go mutates in place), `none` being a signing error. -/
structure V1Env (PrivK PubK Cert Signer : Type) where
  parseAuthorizedKey : GoString → Except Unit PubK
  getUserStatus : GoString → GoString → Except Unit UserStatus
  generateUserCertificate : PubK → GoString → Cert
  newSignerFromKey : Option PrivK → Except Unit Signer
  signCert : Cert → Signer → Except Unit Cert
  validateUserCertificate : Cert → Option PubK → Bool
  marshalAuthorizedKey : Cert → GoString

/-- Lines 195–212 of `PostHostCertificate`: generate the certificate, build
the signer and sign (one combined failure check in Go), then self-validate
before marshalling the response. -/
def certStage {PrivK PubK Cert Signer : Type} (env : V1Env PrivK PubK Cert Signer)
    (keys : Keys PrivK PubK) (pubkey : PubK) (token : GoString) :
    HttpResult × List CAEvent :=
  let cert := env.generateUserCertificate pubkey token
  match env.newSignerFromKey keys.UserCAPrivateKey with
  | .error _ =>
    (⟨statusUnauthorized, .err ERR_INTERNAL_ERROR⟩, [.generateCert, .newSigner])
  | .ok signer =>
    match env.signCert cert signer with
    | .error _ =>
      (⟨statusUnauthorized, .err ERR_INTERNAL_ERROR⟩, [.generateCert, .newSigner, .signCert])
    | .ok signed =>
      if env.validateUserCertificate signed keys.UserCAPublicKey then
        (⟨statusCreated, .certificate (goTrimSuffix (env.marshalAuthorizedKey signed) (gs "\n"))⟩,
          [.generateCert, .newSigner, .signCert, .validate true])
      else
        (⟨statusInternalServerError, .err ERR_INTERNAL_ERROR⟩,
          [.generateCert, .newSigner, .signCert, .validate false])

/-- Lines 171–193 of `PostHostCertificate`: the user-status call and the
switch reducing its verdict; `not_deployed` and `deployed` fall through to the
certificate stage, `suspended` falls through to the default deny. -/
def authStage {PrivK PubK Cert Signer : Type} (env : V1Env PrivK PubK Cert Signer)
    (keys : Keys PrivK PubK) (pubkey : PubK) (ca token : GoString) :
    HttpResult × List CAEvent :=
  match env.getUserStatus ca token with
  | .error _ => (⟨statusUnauthorized, .err ERR_UNAUTHORIZED⟩, [.getUserStatus])
  | .ok status =>
    if status.State == StateNotDeployed then
      let r := certStage env keys pubkey token
      (r.1, .getUserStatus :: r.2)
    else if status.State == StateDeployed then
      let r := certStage env keys pubkey token
      (r.1, .getUserStatus :: r.2)
    else
      (⟨statusUnauthorized, .err ERR_UNAUTHORIZED⟩, [.getUserStatus])

/-- `PostHostCertificate` (lines 135–213).  `conf?` is the result of the
`c.MustGet("config")` type assertion (`none` = failed cast). -/
def postHostCertificate {PrivK PubK Cert Signer : Type}
    (env : V1Env PrivK PubK Cert Signer) (conf? : Option (Config PrivK PubK))
    (req : Request) : HttpResult × List CAEvent :=
  match req.hostBind, req.bodyBind with
  | some host, some body =>
    match env.parseAuthorizedKey body.Pubkey with
    | .error _ => (⟨statusBadRequest, .err ERR_BAD_BODY⟩, [])
    | .ok pubkey =>
      match conf? with
      | none => (⟨statusInternalServerError, .err ERR_INTERNAL_ERROR⟩, [])
      | some conf =>
        match conf.GetMotleyCueURL host with
        | .error _ => (⟨statusBadRequest, .err ERR_UNKNOWN_HOST⟩, [])
        | .ok ca =>
          match conf.GetKeys host with
          | .error _ => (⟨statusBadRequest, .err ERR_UNKNOWN_HOST⟩, [])
          | .ok keys => authStage env keys pubkey ca body.Token
  | _, _ => (⟨statusBadRequest, .err ERR_BAD_BODY⟩, [])

/-!
## Theorems
-/

/-- C2: for every host and pattern, `matchesHost` accepts a non-wildcard
pattern exactly when the host equals it, and accepts a wildcard pattern
`*.domain` exactly when the host ends with `domain` and differs from `domain`;
in particular `matches("a.example.com", "*.example.com")`,
`matches("example.com", "example.com")` and
`matches("b.a.example.com", "*.example.com")` hold while
`matches("example.com", "*.example.com")` does not. -/
theorem matchesHost_spec (host pat domain : GoString) :
    (goHasPrefix pat (gs "*.") = false → (matchesHost host pat = true ↔ host = pat)) ∧
    (matchesHost host ('*' :: '.' :: domain) = true ↔ domain <:+ host ∧ host ≠ domain) ∧
    matchesHost (gs "a.example.com") (gs "*.example.com") = true ∧
    matchesHost (gs "example.com") (gs "*.example.com") = false ∧
    matchesHost (gs "example.com") (gs "example.com") = true ∧
    matchesHost (gs "b.a.example.com") (gs "*.example.com") = true := by
  refine ⟨fun h => ?_, ?_, by decide, by decide, by decide, by decide⟩
  · simp [matchesHost, h]
  · have hpre : goHasPrefix ('*' :: '.' :: domain) ['*', '.'] = true := by
      simp [goHasPrefix, List.isPrefixOf]
    simp [matchesHost, gs, hpre, goCutPrefix, goHasSuffix, List.isPrefixOf,
      List.isSuffixOf_iff_suffix, bne_iff_ne]

theorem matchesHost_spec_witness : matchesHost (gs "node1") (gs "node1") = true :=
  ((matchesHost_spec (gs "node1") (gs "node1") (gs "x")).1 (by decide)).mpr rfl

/-- C10: the wildcard match is a bare string-suffix test with no label-boundary
check — `*.domain` accepts any proper-superstring host ending in `domain`, so
`matchesHost("badexample.com", "*.example.com")` is `true`, and the pattern
`"*."` accepts every non-empty host (and rejects the empty one). -/
theorem matchesHost_no_label_boundary :
    (∀ host domain : GoString,
      matchesHost host ('*' :: '.' :: domain) = true ↔ domain <:+ host ∧ host ≠ domain) ∧
    matchesHost (gs "badexample.com") (gs "*.example.com") = true ∧
    (∀ host : GoString, host ≠ [] → matchesHost host (gs "*.") = true) ∧
    matchesHost ([] : GoString) (gs "*.") = false := by
  refine ⟨fun host domain => ?_, by decide, fun host h => ?_, by decide⟩
  · have hpre : goHasPrefix ('*' :: '.' :: domain) ['*', '.'] = true := by
      simp [goHasPrefix, List.isPrefixOf]
    simp [matchesHost, gs, hpre, goCutPrefix, goHasSuffix, List.isPrefixOf,
      List.isSuffixOf_iff_suffix, bne_iff_ne]
  · simp [matchesHost, gs, goHasPrefix, goCutPrefix, goHasSuffix, List.isPrefixOf,
      List.isSuffixOf_iff_suffix, bne_iff_ne, h]

theorem matchesHost_no_label_boundary_witness : matchesHost (gs "x") (gs "*.") = true :=
  matchesHost_no_label_boundary.2.2.1 (gs "x") (by decide)

theorem findHost_eq_none_iff (host : GoString) (l : List (GoString × GoString)) :
    findHost host l = none ↔ ∀ e ∈ l, matchesHost host e.1 = false := by
  induction l with
  | nil => simp [findHost]
  | cons e rest ih =>
    obtain ⟨pat, url⟩ := e
    by_cases h : matchesHost host pat = true
    · simp [findHost, h]
    · simp only [Bool.not_eq_true] at h
      simp [findHost, h, ih]

theorem findHost_mem {host pat url : GoString} {l : List (GoString × GoString)}
    (h : findHost host l = some (pat, url)) :
    (pat, url) ∈ l ∧ matchesHost host pat = true := by
  induction l with
  | nil => simp [findHost] at h
  | cons e rest ih =>
    obtain ⟨p, u⟩ := e
    simp only [findHost] at h
    split at h
    · rename_i hm
      injection h with h
      injection h with h1 h2
      subst h1; subst h2
      exact ⟨List.mem_cons_self _ _, hm⟩
    · rcases ih h with ⟨hmem, hm⟩
      exact ⟨List.mem_cons_of_mem _ hmem, hm⟩

theorem getInfoGroups_none_iff {PrivK PubK : Type} (host : GoString)
    (groups : List (HostGroup PrivK PubK)) :
    getInfoGroups host groups = none ↔
      ∀ g ∈ groups, ∀ e ∈ g.Hosts, matchesHost host e.1 = false := by
  induction groups with
  | nil => simp [getInfoGroups]
  | cons g rest ih =>
    simp only [getInfoGroups]
    cases hf : findHost host g.Hosts with
    | some pr =>
      obtain ⟨pat, url⟩ := pr
      rcases findHost_mem hf with ⟨hmem, hm⟩
      simp only [List.mem_cons]
      constructor
      · intro h; simp at h
      · intro h
        have := h g (Or.inl rfl) (pat, url) hmem
        simp [hm] at this
    | none =>
      rw [findHost_eq_none_iff] at hf
      simp [ih, hf]
      intro _ a b hab
      exact hf (a, b) hab

theorem getInfoGroups_some {PrivK PubK : Type} {host : GoString}
    {groups : List (HostGroup PrivK PubK)} {info : HostInfo PrivK PubK}
    (h : getInfoGroups host groups = some info) :
    ∃ pre g post, groups = pre ++ g :: post ∧
      (∀ g' ∈ pre, findHost host g'.Hosts = none) ∧
      ∃ pat url, findHost host g.Hosts = some (pat, url) ∧
        info = ⟨pat, url, g.CertDuration, g.keys⟩ := by
  induction groups with
  | nil => simp [getInfoGroups] at h
  | cons g rest ih =>
    simp only [getInfoGroups] at h
    cases hf : findHost host g.Hosts with
    | some pr =>
      obtain ⟨pat, url⟩ := pr
      rw [hf] at h
      injection h with h
      exact ⟨[], g, rest, rfl, by simp, pat, url, hf, h.symm⟩
    | none =>
      rw [hf] at h
      rcases ih h with ⟨pre, g', post, heq, hpre, pat, url, hfind, hinfo⟩
      refine ⟨g :: pre, g', post, by simp [heq], ?_, pat, url, hfind, hinfo⟩
      intro g'' hg''
      rcases List.mem_cons.mp hg'' with h1 | h1
      · subst h1; exact hf
      · exact hpre g'' h1

/-- C7: `Config.GetInfo` walks the host groups in configuration order and
returns, for the first group containing a pattern matching the host, a
`HostInfo` carrying that matched pattern, its endpoint URL, and the group's
certificate duration and keys; when no pattern of any group matches it returns
the host-not-found error. -/
theorem GetInfo_first_match {PrivK PubK : Type} (c : Config PrivK PubK) (host : GoString) :
    (∀ info, c.GetInfo host = .ok info →
      ∃ pre g post, c.HostGroups = pre ++ g :: post ∧
        (∀ g' ∈ pre, ∀ e ∈ g'.Hosts, matchesHost host e.1 = false) ∧
        ∃ url, (info.Name, url) ∈ g.Hosts ∧ matchesHost host info.Name = true ∧
          info = ⟨info.Name, url, g.CertDuration, g.keys⟩) ∧
    (c.GetInfo host = .error ERR_HOST_NOT_FOUND ↔
      ∀ g ∈ c.HostGroups, ∀ e ∈ g.Hosts, matchesHost host e.1 = false) := by
  constructor
  · intro info hinfo
    unfold Config.GetInfo at hinfo
    cases hgo : getInfoGroups host c.HostGroups with
    | none => rw [hgo] at hinfo; cases hinfo
    | some info' =>
      rw [hgo] at hinfo
      injection hinfo with hinfo
      subst hinfo
      rcases getInfoGroups_some hgo with ⟨pre, g, post, heq, hpre, pat, url, hfind, hi⟩
      rcases findHost_mem hfind with ⟨hmem, hm⟩
      refine ⟨pre, g, post, heq, ?_, url, ?_, ?_, ?_⟩
      · intro g' hg' e he
        have := (findHost_eq_none_iff host g'.Hosts).mp (hpre g' hg')
        exact this e he
      · rw [hi]; exact hmem
      · rw [hi]; exact hm
      · rw [hi]
  · unfold Config.GetInfo
    cases hgo : getInfoGroups host c.HostGroups with
    | none => simpa using (getInfoGroups_none_iff host c.HostGroups).mp hgo
    | some info' =>
      simp only [reduceCtorEq, false_iff]
      intro hall
      have := (getInfoGroups_none_iff host c.HostGroups).mpr hall
      rw [hgo] at this
      cases this

/-- A concrete loaded configuration used to instantiate the theorems. -/
def sampleKeys : Keys Nat Nat := ⟨some 1, some 2, some 3, some 4⟩

def sampleGroup : HostGroup Nat Nat :=
  { opts := ⟨gs "/hk", gs "/hp", gs "/uk", gs "/up", gs "1h"⟩,
    keys := sampleKeys, CertDuration := 3600, Name := gs "grp",
    Hosts := [(gs "example.com", gs "mc.example.com")] }

def sampleConfig : Config Nat Nat := ⟨[sampleGroup]⟩

theorem GetInfo_first_match_witness :
    ∃ pre g post, sampleConfig.HostGroups = pre ++ g :: post ∧
      (∀ g' ∈ pre, ∀ e ∈ g'.Hosts, matchesHost (gs "example.com") e.1 = false) ∧
      ∃ url, ((gs "example.com"), url) ∈ g.Hosts ∧
        matchesHost (gs "example.com") (gs "example.com") = true ∧
        (⟨gs "example.com", gs "mc.example.com", 3600, sampleKeys⟩ : HostInfo Nat Nat) =
          ⟨gs "example.com", url, g.CertDuration, g.keys⟩ :=
  (GetInfo_first_match sampleConfig (gs "example.com")).1
    ⟨gs "example.com", gs "mc.example.com", 3600, sampleKeys⟩ rfl

theorem LoadConfig_ok_elim {PrivK PubK : Type} {file : IniFile}
    {pp : GoString → Except Unit PubK} {pv : GoString → Except Unit PrivK}
    {conf : Config PrivK PubK} (h : LoadConfig PrivK PubK file pp pv = .ok conf) :
    ∃ groups groups1 cp cv lp lv,
      loadGroups PrivK PubK (mapToOpts (defaultEntries file) zeroOptions) file.sections
        = .ok groups ∧
      loadKeysGo pp pv groups [] [] [] [] = .ok (groups1, cp, cv, lp, lv) ∧
      parseCertValiditiesGo groups1 = .ok conf.HostGroups := by
  simp only [LoadConfig] at h
  cases hlg : loadGroups PrivK PubK (mapToOpts (defaultEntries file) zeroOptions)
      file.sections with
  | error e => rw [hlg] at h; cases h
  | ok groups =>
    rw [hlg] at h
    dsimp only at h
    cases hlk : loadKeysGo pp pv groups [] [] [] [] with
    | error e => rw [hlk] at h; cases h
    | ok res =>
      obtain ⟨groups1, cp, cv, lp, lv⟩ := res
      rw [hlk] at h
      dsimp only at h
      cases hpv : parseCertValiditiesGo groups1 with
      | error e => rw [hpv] at h; cases h
      | ok groups2 =>
        rw [hpv] at h
        dsimp only at h
        injection h with h
        subst h
        exact ⟨groups, groups1, cp, cv, lp, lv, rfl, hlk, hpv⟩

theorem parseCertValidities_mem {PrivK PubK : Type}
    {groups out : List (HostGroup PrivK PubK)}
    (h : parseCertValiditiesGo groups = .ok out) :
    ∀ g ∈ out,
      (g.opts.CertValidity = gs "token" ∧ g.CertDuration = 0) ∨
      (g.opts.CertValidity ≠ gs "token" ∧
        ∃ ns : Int, goParseDuration g.opts.CertValidity = some ns ∧
          g.CertDuration = goDurationSecondsUint64 ns) := by
  induction groups generalizing out with
  | nil =>
    simp only [parseCertValiditiesGo] at h
    injection h with h
    subst h
    simp
  | cons g rest ih =>
    simp only [parseCertValiditiesGo] at h
    by_cases htok : g.opts.CertValidity == gs "token"
    · rw [if_pos htok] at h
      cases hrest : parseCertValiditiesGo rest with
      | error e => rw [hrest] at h; cases h
      | ok rest1 =>
        rw [hrest] at h
        injection h with h
        subst h
        intro g' hg'
        rcases List.mem_cons.mp hg' with h1 | h1
        · subst h1
          exact Or.inl ⟨by simpa using htok, rfl⟩
        · exact ih hrest g' h1
    · rw [if_neg htok] at h
      cases hdur : goParseDuration g.opts.CertValidity with
      | none => rw [hdur] at h; cases h
      | some ns =>
        rw [hdur] at h
        cases hrest : parseCertValiditiesGo rest with
        | error e => rw [hrest] at h; cases h
        | ok rest1 =>
          rw [hrest] at h
          injection h with h
          subst h
          intro g' hg'
          rcases List.mem_cons.mp hg' with h1 | h1
          · subst h1
            exact Or.inr ⟨by simpa using htok, ns, hdur, rfl⟩
          · exact ih hrest g' h1

/-- The counterexample configuration: one fully-populated group whose
certificate validity is the valid duration string `"0"`. -/
def zeroValidityFile : IniFile :=
  ⟨[⟨gs "grp",
      [(gs "host-ca-privkey", gs "/hk"), (gs "host-ca-pubkey", gs "/hp"),
        (gs "user-ca-privkey", gs "/uk"), (gs "user-ca-pubkey", gs "/up"),
        (gs "cert-validity", gs "0"), (gs "example.com", gs "mc.example.com")]⟩]⟩

/-- A key-parse oracle that accepts every path. -/
def constPub : GoString → Except Unit Nat := fun _ => .ok 0

def constPriv : GoString → Except Unit Nat := fun _ => .ok 1

/-- C4 fails as stated: `LoadConfig` accepts the validity string `"0"` (a valid
Go duration that is not the literal `"token"`) and the resulting group has
`CertDuration = 0`, which is neither reserved to `"token"` nor a positive
integer. -/
theorem certDuration_zero_not_token_counterexample :
    LoadConfig Nat Nat zeroValidityFile constPub constPriv =
      .ok ⟨[{ opts := ⟨gs "/hk", gs "/hp", gs "/uk", gs "/up", gs "0"⟩,
              keys := ⟨some 1, some 0, some 1, some 0⟩,
              CertDuration := 0, Name := gs "grp",
              Hosts := [(gs "example.com", gs "mc.example.com")] }]⟩ ∧
      gs "0" ≠ gs "token" := by
  exact ⟨by rfl, by decide⟩

theorem rneDiv_bounds (a b : Nat) (hb : 0 < b) :
    2 * a ≤ 2 * (b * rneDiv a b) + b ∧ 2 * (b * rneDiv a b) ≤ 2 * a + b := by
  have hdm := Nat.div_add_mod a b
  have hmod : a % b < b := Nat.mod_lt _ hb
  have hkey : (rneDiv a b = a / b + 1 ∧ b ≤ 2 * (a % b)) ∨
      (rneDiv a b = a / b ∧ 2 * (a % b) ≤ b) := by
    simp only [rneDiv]
    split
    · rename_i hcond
      simp only [Bool.or_eq_true, Bool.and_eq_true, decide_eq_true_eq, beq_iff_eq] at hcond
      exact Or.inl ⟨rfl, by omega⟩
    · rename_i hcond
      simp only [Bool.or_eq_true, Bool.and_eq_true, decide_eq_true_eq, beq_iff_eq,
        not_or, not_and] at hcond
      exact Or.inr ⟨rfl, by omega⟩
  rcases hkey with ⟨hR, hge⟩ | ⟨hR, hle⟩
  · have e : b * (a / b + 1) = b * (a / b) + b := by ring
    rw [hR, e]
    omega
  · rw [hR]
    omega

theorem floorLog2Aux_spec : ∀ (fuel n : Nat), 0 < n → n < 2 ^ fuel →
    2 ^ floorLog2Aux fuel n ≤ n ∧ n < 2 ^ (floorLog2Aux fuel n + 1) := by
  intro fuel
  induction fuel with
  | zero =>
    intro n h1 h2
    simp at h2
    omega
  | succ fuel ih =>
    intro n h1 h2
    by_cases hn : n < 2
    · simp only [floorLog2Aux, if_pos hn]
      constructor
      · simpa using h1
      · simpa using hn
    · simp only [floorLog2Aux, if_neg hn]
      have h1n : 0 < n / 2 := by omega
      have h2n : n / 2 < 2 ^ fuel := by
        rw [pow_succ] at h2
        omega
      rcases ih (n / 2) h1n h2n with ⟨hl, hr⟩
      constructor
      · rw [pow_succ]
        have := Nat.mul_le_mul_right 2 hl
        omega
      · rw [pow_succ]
        have h3 : n / 2 + 1 ≤ 2 ^ (floorLog2Aux fuel (n / 2) + 1) := hr
        have h4 := Nat.mul_le_mul_right 2 h3
        omega

theorem floorLog2_spec (n : Nat) (h : 0 < n) :
    2 ^ floorLog2 n ≤ n ∧ n < 2 ^ (floorLog2 n + 1) :=
  floorLog2Aux_spec n n h (Nat.lt_two_pow n)

theorem ceilLog2_spec (n : Nat) (h : 2 ≤ n) :
    n ≤ 2 ^ ceilLog2 n ∧ 2 ^ (ceilLog2 n - 1) < n ∧ 1 ≤ ceilLog2 n := by
  unfold ceilLog2
  rw [if_neg (by omega)]
  rcases floorLog2_spec (n - 1) (by omega) with ⟨hl, hr⟩
  have e : floorLog2 (n - 1) + 1 - 1 = floorLog2 (n - 1) := by omega
  refine ⟨by omega, ?_, by omega⟩
  rw [e]
  omega

/-- The binary64 computation of `Duration.Seconds()` followed by the `uint64`
truncation stays within one of the exact whole-second count: it is never below
it, exceeds it by at most one (the float addition can round a fraction within
half an ulp of a whole second up to it), is exact whenever the duration is a
whole number of seconds, and is `0` for sub-second durations. -/
theorem floatSecondsTruncPos_bounds (d : Nat) (hd : d < 9223372036854775808) :
    d / 1000000000 ≤ floatSecondsTruncPos d ∧
    floatSecondsTruncPos d ≤ d / 1000000000 + 1 ∧
    (d % 1000000000 = 0 → floatSecondsTruncPos d = d / 1000000000) ∧
    (d < 1000000000 → floatSecondsTruncPos d = 0) := by
  simp only [floatSecondsTruncPos]
  by_cases h0 : (d % 1000000000 == 0) = true
  · rw [if_pos h0]
    refine ⟨Nat.le_refl _, by omega, fun _ => rfl, fun hlt => Nat.div_eq_of_lt hlt⟩
  · rw [if_neg h0]
    have hnsec_pos : 0 < d % 1000000000 := by
      rcases Nat.eq_zero_or_pos (d % 1000000000) with hz | hp
      · exact absurd (by simp [hz]) h0
      · exact hp
    have hnsec_lt : d % 1000000000 < 1000000000 := Nat.mod_lt _ (by norm_num)
    have hsec_lt : d / 1000000000 < 2 ^ 34 := by omega
    set sec := d / 1000000000 with hsecdef
    set nsec := d % 1000000000 with hnsecdef
    set cl := (2 ^ 52 * 1000000000 + nsec - 1) / nsec with hcldef
    have hcl1 : 2 ^ 52 * 1000000000 ≤ nsec * cl := by
      have h1 := Nat.div_add_mod (2 ^ 52 * 1000000000 + nsec - 1) nsec
      have h2 := Nat.mod_lt (2 ^ 52 * 1000000000 + nsec - 1) hnsec_pos
      rw [← hcldef] at h1
      omega
    have hcl2 : nsec * cl ≤ 2 ^ 52 * 1000000000 + nsec - 1 := by
      have h1 := Nat.div_mul_le_self (2 ^ 52 * 1000000000 + nsec - 1) nsec
      rw [← hcldef, Nat.mul_comm] at h1
      omega
    have hcl_ge2 : 2 ≤ cl := by
      by_contra hlt
      push_neg at hlt
      have h1 : nsec * cl ≤ nsec * 1 := Nat.mul_le_mul_left nsec (by omega)
      omega
    rcases ceilLog2_spec cl hcl_ge2 with ⟨hk1, hk2, hk_pos⟩
    set k := ceilLog2 cl with hkdef
    have hq_low : 2 ^ 52 * 1000000000 ≤ nsec * 2 ^ k :=
      le_trans hcl1 (Nat.mul_le_mul_left nsec hk1)
    have hq_high : nsec * 2 ^ k < 2 ^ 53 * 1000000000 := by
      have e1 : nsec * 2 ^ (k - 1) ≤ nsec * (cl - 1) :=
        Nat.mul_le_mul_left nsec (by omega)
      have e2 : nsec * (cl - 1) + nsec = nsec * cl := by
        have e : cl - 1 + 1 = cl := by omega
        calc nsec * (cl - 1) + nsec = nsec * (cl - 1 + 1) := by ring
          _ = nsec * cl := by rw [e]
      have e3 : nsec * 2 ^ k = 2 * (nsec * 2 ^ (k - 1)) := by
        have e : k - 1 + 1 = k := by omega
        calc nsec * 2 ^ k = nsec * 2 ^ (k - 1 + 1) := by rw [e]
          _ = nsec * (2 ^ (k - 1) * 2) := by rw [pow_succ]
          _ = 2 * (nsec * 2 ^ (k - 1)) := by ring
      omega
    have hk53 : 53 ≤ k := by
      by_contra hlt
      push_neg at hlt
      have e1 : (2 : Nat) ^ k ≤ 2 ^ 52 := Nat.pow_le_pow_right (by norm_num) (by omega)
      have e2 : nsec * 2 ^ k ≤ nsec * 2 ^ 52 := Nat.mul_le_mul_left nsec e1
      have e3 : nsec * 2 ^ 52 < 1000000000 * 2 ^ 52 := by
        have := Nat.mul_le_mul_right (2 ^ 52) (show nsec + 1 ≤ 1000000000 by omega)
        omega
      omega
    have hPk : (0 : Nat) < 2 ^ k := Nat.pos_pow_of_pos k (by norm_num)
    have hP53 : (2 : Nat) ^ 53 ≤ 2 ^ k := Nat.pow_le_pow_right (by norm_num) hk53
    rcases rneDiv_bounds (nsec * 2 ^ k) 1000000000 (by norm_num) with ⟨hcm1, hcm2⟩
    set cm := rneDiv (nsec * 2 ^ k) 1000000000 with hcmdef
    have hcm_pos : 1 ≤ cm := by omega
    have hcm_le : cm ≤ 2 ^ 53 := by omega
    have hcm_ltP : cm < 2 ^ k := by
      have e1 : nsec * 2 ^ k ≤ 999999999 * 2 ^ k :=
        Nat.mul_le_mul_right (2 ^ k) (by omega)
      omega
    set t := sec * 2 ^ k + cm with htdef
    by_cases hsec0 : sec = 0
    · have htcm : t = cm := by rw [htdef, hsec0]; ring
      have hdur0 : rne53 t / 2 ^ k = 0 := by
        by_cases hsmall : t < 2 ^ 53
        · simp only [rne53, if_pos hsmall]
          exact Nat.div_eq_of_lt (by omega)
        · have hteq : t = 2 ^ 53 := by omega
          have hval : rne53 (2 ^ 53) = 2 ^ 53 := by decide
          rw [hteq, hval]
          exact Nat.div_eq_of_lt (by omega)
      rw [hdur0]
      refine ⟨by omega, by omega, fun hmod => absurd (by simp [← hnsecdef, hmod]) h0,
        fun _ => rfl⟩
    · have hsec1 : 1 ≤ sec := by omega
      have hsecP : 2 ^ k ≤ sec * 2 ^ k := Nat.le_mul_of_pos_left _ (by omega)
      have ht_low : 2 ^ 53 < t := by omega
      rcases floorLog2_spec t (by omega) with ⟨hfl1, hfl2⟩
      set L := floorLog2 t with hLdef
      have hL53 : 53 ≤ L := by
        by_contra hlt
        push_neg at hlt
        have : (2 : Nat) ^ (L + 1) ≤ 2 ^ 53 := Nat.pow_le_pow_right (by norm_num) (by omega)
        omega
      set j := L - 52 with hjdef
      have hj1 : 1 ≤ j := by omega
      have ht_up : t < 2 ^ 34 * 2 ^ k := by
        have e1 : sec * 2 ^ k ≤ 17179869183 * 2 ^ k :=
          Nat.mul_le_mul_right (2 ^ k) (by omega)
        omega
      have hLk : L < k + 34 := by
        by_contra hge
        push_neg at hge
        have e1 : (2 : Nat) ^ (k + 34) ≤ 2 ^ L := Nat.pow_le_pow_right (by norm_num) hge
        rw [pow_add] at e1
        have e2 : (2 : Nat) ^ k * 2 ^ 34 = 2 ^ 34 * 2 ^ k := by ring
        omega
      have hjk : j ≤ k := by omega
      have hsplit : (2 : Nat) ^ k = 2 ^ (k - j) * 2 ^ j := by
        rw [← pow_add]
        congr 1
        omega
      have hPj : (0 : Nat) < 2 ^ j := Nat.pos_pow_of_pos j (by norm_num)
      have hPkj : (0 : Nat) < 2 ^ (k - j) := Nat.pos_pow_of_pos _ (by norm_num)
      have hjle : (2 : Nat) ^ j ≤ 2 ^ k := Nat.pow_le_pow_right (by norm_num) hjk
      rcases rneDiv_bounds t (2 ^ j) hPj with ⟨hr1, hr2⟩
      set rho := rneDiv t (2 ^ j) with hrhodef
      have hL_eq : L - 52 = j := by omega
      have hrne : rne53 t = rho * 2 ^ j := by
        simp only [rne53]
        rw [if_neg (by omega), ← hLdef, hL_eq, ← hrhodef]
      set S := sec * 2 ^ (k - j) with hSdef
      have hS1 : 1 ≤ S := by
        have := Nat.le_mul_of_pos_left (2 ^ (k - j)) (show 0 < sec by omega)
        omega
      have hSP : sec * 2 ^ k = S * 2 ^ j := by
        rw [hSdef, hsplit]
        ring
      have hdur_eq : rne53 t / 2 ^ k = rho / 2 ^ (k - j) := by
        rw [hrne, hsplit]
        exact Nat.mul_div_mul_right rho (2 ^ (k - j)) hPj
      have hlow : sec ≤ rho / 2 ^ (k - j) := by
        rw [Nat.le_div_iff_mul_le hPkj]
        by_contra hlt
        push_neg at hlt
        have e1 : rho + 1 ≤ sec * 2 ^ (k - j) := hlt
        have e2 : 2 ^ j * (rho + 1) ≤ 2 ^ j * (sec * 2 ^ (k - j)) :=
          Nat.mul_le_mul_left (2 ^ j) e1
        have e3 : 2 ^ j * (rho + 1) = 2 ^ j * rho + 2 ^ j := by ring
        have e4 : 2 ^ j * (sec * 2 ^ (k - j)) = S * 2 ^ j := by rw [hSdef]; ring
        omega
      have hup : rho / 2 ^ (k - j) ≤ sec + 1 := by
        have e0 : rho / 2 ^ (k - j) < sec + 2 := by
          rw [Nat.div_lt_iff_lt_mul hPkj]
          by_contra hge
          push_neg at hge
          have e1 : (sec + 2) * 2 ^ (k - j) ≤ rho := hge
          have e2 : 2 ^ j * ((sec + 2) * 2 ^ (k - j)) ≤ 2 ^ j * rho :=
            Nat.mul_le_mul_left (2 ^ j) e1
          have e3 : 2 ^ j * ((sec + 2) * 2 ^ (k - j)) = S * 2 ^ j + 2 * (2 ^ (k - j) * 2 ^ j) := by
            rw [hSdef]
            ring
          rw [← hsplit] at e3
          omega
        omega
      rw [hdur_eq]
      refine ⟨hlow, hup, fun hmod => absurd (by simp [← hnsecdef, hmod]) h0,
        fun hlt => absurd (by omega : sec = 0) hsec0⟩

theorem parseDurLoop_le : ∀ (fuel : Nat) (s : GoString) (acc d : Nat),
    parseDurLoop fuel s acc = some d → acc ≤ 9223372036854775808 →
    d ≤ 9223372036854775808 := by
  intro fuel
  induction fuel with
  | zero =>
    intro s acc d h hacc
    cases s with
    | nil =>
      simp only [parseDurLoop] at h
      injection h with h
      omega
    | cons c cs =>
      simp only [parseDurLoop] at h
      cases h
  | succ fuel ih =>
    intro s acc d h hacc
    cases s with
    | nil =>
      simp only [parseDurLoop] at h
      injection h with h
      omega
    | cons c cs =>
      simp only [parseDurLoop] at h
      repeat' split at h
      all_goals try (cases h)
      all_goals exact ih _ _ _ h (by omega)

theorem goParseDuration_bounds {s : GoString} {ns : Int}
    (h : goParseDuration s = some ns) :
    -(9223372036854775808 : Int) ≤ ns ∧ ns ≤ 9223372036854775807 := by
  simp only [goParseDuration] at h
  repeat' split at h
  all_goals try (cases h)
  · omega
  · rename_i d hloop hneg
    have hb := parseDurLoop_le _ _ _ _ hloop (by omega)
    omega
  · omega

/-- C4 (amended, with the binary64 semantics of `uint64(dur.Seconds())` made
exact): for every configuration accepted by `LoadConfig` and every host group
in it, `CertDuration` is `0` when the configured validity string is the
literal `"token"`; otherwise the string parses as a Go duration and
`CertDuration` is `uint64(duration.Seconds())` computed in binary64 — never
below the duration in whole seconds, at most one above it (the float addition
can round a fraction within half an ulp of a whole second upward, e.g.
`"16777216s999999999ns"` yields `16777217`), exactly the whole-second count
whenever the duration is a whole number of seconds, `0` (not positive) for
zero or sub-second durations such as `"0"` or `"100ms"`, and positive for any
duration of at least one second; a validity string that is neither `"token"`
nor a valid duration causes the load to fail (no accepted configuration
contains one). -/
theorem certDuration_resolution {PrivK PubK : Type} (file : IniFile)
    (pp : GoString → Except Unit PubK) (pv : GoString → Except Unit PrivK)
    (conf : Config PrivK PubK) (h : LoadConfig PrivK PubK file pp pv = .ok conf) :
    ∀ g ∈ conf.HostGroups,
      (g.opts.CertValidity = gs "token" → g.CertDuration = 0) ∧
      (g.opts.CertValidity ≠ gs "token" →
        ∃ ns : Int, goParseDuration g.opts.CertValidity = some ns ∧
          g.CertDuration = goDurationSecondsUint64 ns ∧
          (0 ≤ ns →
            ns.toNat / 1000000000 ≤ g.CertDuration ∧
            g.CertDuration ≤ ns.toNat / 1000000000 + 1 ∧
            (ns.toNat % 1000000000 = 0 → g.CertDuration = ns.toNat / 1000000000) ∧
            (ns < 1000000000 → g.CertDuration = 0) ∧
            (1000000000 ≤ ns → 0 < g.CertDuration))) := by
  rcases LoadConfig_ok_elim h with ⟨groups, groups1, cp, cv, lp, lv, _, _, hpv⟩
  intro g hg
  rcases parseCertValidities_mem hpv g hg with ⟨htok, hdur⟩ | ⟨htok, ns, hns, hdur⟩
  · exact ⟨fun _ => hdur, fun hne => absurd htok hne⟩
  · refine ⟨fun heq => absurd heq htok, fun _ => ⟨ns, hns, hdur, fun hpos => ?_⟩⟩
    rcases goParseDuration_bounds hns with ⟨-, hub⟩
    have hlt63 : ns.toNat < 9223372036854775808 := by omega
    rcases floatSecondsTruncPos_bounds ns.toNat hlt63 with ⟨hb1, hb2, hb3, hb4⟩
    have hdur2 : g.CertDuration = floatSecondsTruncPos ns.toNat := by
      rw [hdur, goDurationSecondsUint64, if_pos hpos]
    refine ⟨by omega, by omega, fun hm => by omega, fun hlt => ?_, fun hge => ?_⟩
    · have : ns.toNat < 1000000000 := by omega
      omega
    · have h1 : 1000000000 ≤ ns.toNat := by omega
      have h2 : 1 ≤ ns.toNat / 1000000000 := by omega
      omega

theorem certDuration_resolution_witness :
    (gs "1h" : GoString) ≠ gs "token" ∧
    ∃ ns : Int, goParseDuration (gs "1h") = some ns ∧
      (3600 : Nat) = goDurationSecondsUint64 ns ∧
      (0 ≤ ns →
        ns.toNat / 1000000000 ≤ 3600 ∧
        (3600 : Nat) ≤ ns.toNat / 1000000000 + 1 ∧
        (ns.toNat % 1000000000 = 0 → (3600 : Nat) = ns.toNat / 1000000000) ∧
        (ns < 1000000000 → (3600 : Nat) = 0) ∧
        (1000000000 ≤ ns → 0 < (3600 : Nat))) := by
  have h := @certDuration_resolution Nat Nat
    ⟨[⟨gs "grp",
        [(gs "host-ca-privkey", gs "/hk"), (gs "host-ca-pubkey", gs "/hp"),
          (gs "user-ca-privkey", gs "/uk"), (gs "user-ca-pubkey", gs "/up"),
          (gs "cert-validity", gs "1h"), (gs "example.com", gs "mc.example.com")]⟩]⟩
    constPub constPriv
    ⟨[{ opts := ⟨gs "/hk", gs "/hp", gs "/uk", gs "/up", gs "1h"⟩,
        keys := ⟨some 1, some 0, some 1, some 0⟩,
        CertDuration := 3600, Name := gs "grp",
        Hosts := [(gs "example.com", gs "mc.example.com")] }]⟩
    (by rfl)
  exact ⟨by decide,
    (h { opts := ⟨gs "/hk", gs "/hp", gs "/uk", gs "/up", gs "1h"⟩,
         keys := ⟨some 1, some 0, some 1, some 0⟩,
         CertDuration := 3600, Name := gs "grp",
         Hosts := [(gs "example.com", gs "mc.example.com")] }
       (by simp)).2 (by decide)⟩

theorem loadGroups_error_of_bad {PrivK PubK : Type} (defOpts : DefaultOptions)
    (secs : List IniSection)
    (hbad : ∃ sec ∈ secs, sec.Name ≠ iniDefaultSection ∧
      missingOption (mapToOpts sec.entries defOpts) = true) :
    ∃ sec ∈ secs, sec.Name ≠ iniDefaultSection ∧
      missingOption (mapToOpts sec.entries defOpts) = true ∧
      loadGroups PrivK PubK defOpts secs =
        .error (gs "missing option in hostgroup " ++ sec.Name) := by
  induction secs with
  | nil => simp at hbad
  | cons sec rest ih =>
    by_cases hdef : sec.Name == iniDefaultSection
    · have hname : sec.Name = iniDefaultSection := by simpa using hdef
      have hrest : ∃ s ∈ rest, s.Name ≠ iniDefaultSection ∧
          missingOption (mapToOpts s.entries defOpts) = true := by
        rcases hbad with ⟨s, hs, hne, hm⟩
        rcases List.mem_cons.mp hs with h1 | h1
        · subst h1; exact absurd hname hne
        · exact ⟨s, h1, hne, hm⟩
      rcases ih hrest with ⟨s, hs, hne, hm, herr⟩
      refine ⟨s, List.mem_cons_of_mem _ hs, hne, hm, ?_⟩
      simp only [loadGroups, hdef, if_pos]
      exact herr
    · have hname : sec.Name ≠ iniDefaultSection := by simpa using hdef
      by_cases hmiss : missingOption (mapToOpts sec.entries defOpts) = true
      · refine ⟨sec, List.mem_cons_self _ _, hname, hmiss, ?_⟩
        simp only [loadGroups, hdef]
        simp [hmiss]
      · have hrest : ∃ s ∈ rest, s.Name ≠ iniDefaultSection ∧
            missingOption (mapToOpts s.entries defOpts) = true := by
          rcases hbad with ⟨s, hs, hne, hm⟩
          rcases List.mem_cons.mp hs with h1 | h1
          · subst h1; exact absurd hm hmiss
          · exact ⟨s, h1, hne, hm⟩
        rcases ih hrest with ⟨s, hs, hne, hm, herr⟩
        refine ⟨s, List.mem_cons_of_mem _ hs, hne, hm, ?_⟩
        simp only [loadGroups, hdef]
        simp only [Bool.false_eq_true, if_false, hmiss, herr]

theorem loadGroups_ok_mem {PrivK PubK : Type} {defOpts : DefaultOptions}
    {secs : List IniSection} {groups : List (HostGroup PrivK PubK)}
    (h : loadGroups PrivK PubK defOpts secs = .ok groups) :
    ∀ g ∈ groups, missingOption g.opts = false ∧
      ∃ sec ∈ secs, sec.Name = g.Name ∧ g.opts = mapToOpts sec.entries defOpts ∧
        g.Hosts = sec.entries.filter (fun e => !isOptionKey e.1) := by
  induction secs generalizing groups with
  | nil =>
    simp only [loadGroups] at h
    injection h with h
    subst h
    simp
  | cons sec rest ih =>
    by_cases hdef : sec.Name == iniDefaultSection
    · simp only [loadGroups, hdef, if_pos] at h
      intro g hg
      rcases ih h g hg with ⟨hm, s, hs, hrest⟩
      exact ⟨hm, s, List.mem_cons_of_mem _ hs, hrest⟩
    · simp only [loadGroups, hdef, Bool.false_eq_true, if_false] at h
      by_cases hmiss : missingOption (mapToOpts sec.entries defOpts) = true
      · rw [if_pos hmiss] at h; cases h
      · simp only [Bool.not_eq_true] at hmiss
        rw [if_neg (by simp [hmiss])] at h
        cases hrec : loadGroups PrivK PubK defOpts rest with
        | error e => rw [hrec] at h; cases h
        | ok groups1 =>
          rw [hrec] at h
          injection h with h
          subst h
          intro g hg
          rcases List.mem_cons.mp hg with h1 | h1
          · subst h1
            exact ⟨hmiss, sec, List.mem_cons_self _ _, rfl, rfl, rfl⟩
          · rcases ih hrec g h1 with ⟨hm, s, hs, hrest⟩
            exact ⟨hm, s, List.mem_cons_of_mem _ hs, hrest⟩

theorem loadKeysGo_mem_src {PrivK PubK : Type}
    {pp : GoString → Except Unit PubK} {pv : GoString → Except Unit PrivK}
    {groups : List (HostGroup PrivK PubK)} {cpub : KeyCache PubK} {cpriv : KeyCache PrivK}
    {plog vlog : List GoString} {out : List (HostGroup PrivK PubK)}
    {cp : KeyCache PubK} {cv : KeyCache PrivK} {lp lv : List GoString}
    (h : loadKeysGo pp pv groups cpub cpriv plog vlog = .ok (out, cp, cv, lp, lv)) :
    ∀ g1 ∈ out, ∃ g ∈ groups, g1.opts = g.opts ∧ g1.Name = g.Name ∧ g1.Hosts = g.Hosts ∧
      g1.CertDuration = g.CertDuration := by
  induction groups generalizing cpub cpriv plog vlog out cp cv lp lv with
  | nil =>
    simp only [loadKeysGo, Except.ok.injEq, Prod.mk.injEq] at h
    obtain ⟨h1, -⟩ := h
    subst h1
    simp
  | cons g rest ih =>
    simp only [loadKeysGo] at h
    cases hep : ensurePaths pp cpub plog [g.opts.PathHostCAPublicKey, g.opts.PathUserCAPublicKey] with
    | error e => rw [hep] at h; cases h
    | ok res1 =>
      obtain ⟨cpub1, plog1⟩ := res1
      rw [hep] at h
      dsimp only at h
      cases hev : ensurePaths pv cpriv vlog [g.opts.PathHostCAPrivateKey, g.opts.PathUserCAPrivateKey] with
      | error e => rw [hev] at h; cases h
      | ok res2 =>
        obtain ⟨cpriv1, vlog1⟩ := res2
        rw [hev] at h
        dsimp only at h
        cases hrec : loadKeysGo pp pv rest cpub1 cpriv1 plog1 vlog1 with
        | error e => rw [hrec] at h; cases h
        | ok res =>
          obtain ⟨rest1, cp1, cv1, lp1, lv1⟩ := res
          rw [hrec] at h
          dsimp only at h
          simp only [Except.ok.injEq, Prod.mk.injEq] at h
          obtain ⟨hout, -⟩ := h
          subst hout
          intro g1 hg1
          rcases List.mem_cons.mp hg1 with h1 | h1
          · subst h1
            exact ⟨g, List.mem_cons_self _ _, rfl, rfl, rfl, rfl⟩
          · rcases ih hrec g1 h1 with ⟨g', hmem, hrest⟩
            exact ⟨g', List.mem_cons_of_mem _ hmem, hrest⟩

theorem parseCertValidities_mem_src {PrivK PubK : Type}
    {groups out : List (HostGroup PrivK PubK)}
    (h : parseCertValiditiesGo groups = .ok out) :
    ∀ g1 ∈ out, ∃ g ∈ groups, g1.opts = g.opts ∧ g1.Name = g.Name ∧ g1.Hosts = g.Hosts ∧
      g1.keys = g.keys := by
  induction groups generalizing out with
  | nil =>
    simp only [parseCertValiditiesGo] at h
    injection h with h
    subst h
    simp
  | cons g rest ih =>
    simp only [parseCertValiditiesGo] at h
    by_cases htok : g.opts.CertValidity == gs "token"
    · rw [if_pos htok] at h
      cases hrest : parseCertValiditiesGo rest with
      | error e => rw [hrest] at h; cases h
      | ok rest1 =>
        rw [hrest] at h
        injection h with h
        subst h
        intro g1 hg1
        rcases List.mem_cons.mp hg1 with h1 | h1
        · subst h1
          exact ⟨g, List.mem_cons_self _ _, rfl, rfl, rfl, rfl⟩
        · rcases ih hrest g1 h1 with ⟨g', hmem, hrest'⟩
          exact ⟨g', List.mem_cons_of_mem _ hmem, hrest'⟩
    · rw [if_neg htok] at h
      cases hdur : goParseDuration g.opts.CertValidity with
      | none => rw [hdur] at h; cases h
      | some ns =>
        rw [hdur] at h
        cases hrest : parseCertValiditiesGo rest with
        | error e => rw [hrest] at h; cases h
        | ok rest1 =>
          rw [hrest] at h
          injection h with h
          subst h
          intro g1 hg1
          rcases List.mem_cons.mp hg1 with h1 | h1
          · subst h1
            exact ⟨g, List.mem_cons_self _ _, rfl, rfl, rfl, rfl⟩
          · rcases ih hrest g1 h1 with ⟨g', hmem, hrest'⟩
            exact ⟨g', List.mem_cons_of_mem _ hmem, hrest'⟩

theorem LoadConfig_error_of_loadGroups {PrivK PubK : Type} {file : IniFile}
    {pp : GoString → Except Unit PubK} {pv : GoString → Except Unit PrivK} {e : GoString}
    (h : loadGroups PrivK PubK (mapToOpts (defaultEntries file) zeroOptions) file.sections
      = .error e) :
    LoadConfig PrivK PubK file pp pv = .error e := by
  simp only [LoadConfig, h]

/-- C6: `LoadConfig` merges the global section into each named group
field-by-field (a present, non-empty group value overrides the global
default, as `mapToOpts` states); every group of an accepted configuration has
all four key-path fields and the validity field non-empty and its options
equal to that merge, and a named group that is left with an empty required
field after merging makes `LoadConfig` fail with an error naming a group with
a missing option, returning no configuration. -/
theorem loadConfig_merge_and_missing {PrivK PubK : Type} (file : IniFile)
    (pp : GoString → Except Unit PubK) (pv : GoString → Except Unit PrivK) :
    ((∃ sec ∈ file.sections, sec.Name ≠ iniDefaultSection ∧
        missingOption (mapToOpts sec.entries (mapToOpts (defaultEntries file) zeroOptions))
          = true) →
      ∃ sec ∈ file.sections, sec.Name ≠ iniDefaultSection ∧
        missingOption (mapToOpts sec.entries (mapToOpts (defaultEntries file) zeroOptions))
          = true ∧
        LoadConfig PrivK PubK file pp pv =
          .error (gs "missing option in hostgroup " ++ sec.Name)) ∧
    (∀ conf, LoadConfig PrivK PubK file pp pv = .ok conf →
      ∀ g ∈ conf.HostGroups, missingOption g.opts = false ∧
        ∃ sec ∈ file.sections, sec.Name = g.Name ∧
          g.opts = mapToOpts sec.entries (mapToOpts (defaultEntries file) zeroOptions)) := by
  constructor
  · intro hbad
    rcases @loadGroups_error_of_bad PrivK PubK
        (mapToOpts (defaultEntries file) zeroOptions) file.sections hbad with
      ⟨sec, hs, hne, hm, herr⟩
    exact ⟨sec, hs, hne, hm, LoadConfig_error_of_loadGroups herr⟩
  · intro conf h g hg
    rcases LoadConfig_ok_elim h with ⟨groups, groups1, cp, cv, lp, lv, hlg, hlk, hpv⟩
    rcases parseCertValidities_mem_src hpv g hg with ⟨g1, hg1, hopts1, hname1, -, -⟩
    rcases loadKeysGo_mem_src hlk g1 hg1 with ⟨g0, hg0, hopts0, hname0, -, -⟩
    rcases loadGroups_ok_mem hlg g0 hg0 with ⟨hmiss, sec, hsec, hsname, hsopts, -⟩
    rw [hopts1, hopts0]
    refine ⟨hmiss, sec, hsec, ?_, hsopts⟩
    rw [hsname, ← hname0, ← hname1]

/-- A configuration file whose one named group lacks the key-path options. -/
def badFile : IniFile :=
  ⟨[⟨gs "grp", [(gs "cert-validity", gs "1h"), (gs "example.com", gs "mc.example.com")]⟩]⟩

theorem loadConfig_merge_and_missing_witness :
    ∃ sec ∈ badFile.sections, sec.Name ≠ iniDefaultSection ∧
      missingOption (mapToOpts sec.entries (mapToOpts (defaultEntries badFile) zeroOptions))
        = true ∧
      LoadConfig Nat Nat badFile constPub constPriv =
        .error (gs "missing option in hostgroup " ++ sec.Name) :=
  (loadConfig_merge_and_missing badFile constPub constPriv).1 (by decide)

theorem cacheGet_cons {K : Type} (p q : GoString) (k : K) (c : KeyCache K) :
    cacheGet ((p, k) :: c) q = if p == q then some k else cacheGet c q := by
  simp only [cacheGet, List.find?]
  by_cases h : p == q
  · simp [h]
  · simp only [Bool.not_eq_true] at h
    simp [h]

theorem cacheGet_insert_mono {K : Type} {p q : GoString} {k v : K} {c : KeyCache K}
    (hnone : cacheGet c p = none) (h : cacheGet c q = some v) :
    cacheGet ((p, k) :: c) q = some v := by
  rw [cacheGet_cons]
  by_cases hpq : p == q
  · have : p = q := by simpa using hpq
    subst this
    rw [hnone] at h
    cases h
  · simp only [Bool.not_eq_true] at hpq
    simp [hpq, h]

theorem ensurePaths_mono {K : Type} {parse : GoString → Except Unit K}
    {c : KeyCache K} {log : List GoString} {ps : List GoString}
    {c' : KeyCache K} {log' : List GoString}
    (h : ensurePaths parse c log ps = .ok (c', log')) :
    ∀ q v, cacheGet c q = some v → cacheGet c' q = some v := by
  induction ps generalizing c log with
  | nil =>
    simp only [ensurePaths, Except.ok.injEq, Prod.mk.injEq] at h
    obtain ⟨h1, -⟩ := h
    subst h1
    exact fun q v hv => hv
  | cons p ps ih =>
    simp only [ensurePaths] at h
    cases hg : cacheGet c p with
    | some w =>
      rw [hg] at h
      exact ih h
    | none =>
      rw [hg] at h
      cases hp : parse p with
      | error e => rw [hp] at h; cases h
      | ok k =>
        rw [hp] at h
        dsimp only at h
        intro q v hv
        exact ih h q v (cacheGet_insert_mono hg hv)

theorem ensurePaths_covers {K : Type} {parse : GoString → Except Unit K}
    {c : KeyCache K} {log : List GoString} {ps : List GoString}
    {c' : KeyCache K} {log' : List GoString}
    (h : ensurePaths parse c log ps = .ok (c', log')) :
    ∀ p ∈ ps, ∃ v, cacheGet c' p = some v := by
  induction ps generalizing c log with
  | nil => simp
  | cons p ps ih =>
    simp only [ensurePaths] at h
    intro q hq
    cases hg : cacheGet c p with
    | some w =>
      rw [hg] at h
      rcases List.mem_cons.mp hq with h1 | h1
      · subst h1
        exact ⟨w, ensurePaths_mono h q w hg⟩
      · exact ih h q h1
    | none =>
      rw [hg] at h
      cases hp : parse p with
      | error e => rw [hp] at h; cases h
      | ok k =>
        rw [hp] at h
        dsimp only at h
        rcases List.mem_cons.mp hq with h1 | h1
        · subst h1
          refine ⟨k, ensurePaths_mono h q k ?_⟩
          rw [cacheGet_cons]
          simp
        · exact ih h q h1

theorem loadKeysGo_mono {PrivK PubK : Type}
    {pp : GoString → Except Unit PubK} {pv : GoString → Except Unit PrivK}
    {groups : List (HostGroup PrivK PubK)} {cpub : KeyCache PubK} {cpriv : KeyCache PrivK}
    {plog vlog : List GoString} {out : List (HostGroup PrivK PubK)}
    {cp : KeyCache PubK} {cv : KeyCache PrivK} {lp lv : List GoString}
    (h : loadKeysGo pp pv groups cpub cpriv plog vlog = .ok (out, cp, cv, lp, lv)) :
    (∀ q v, cacheGet cpub q = some v → cacheGet cp q = some v) ∧
    (∀ q v, cacheGet cpriv q = some v → cacheGet cv q = some v) := by
  induction groups generalizing cpub cpriv plog vlog out cp cv lp lv with
  | nil =>
    simp only [loadKeysGo, Except.ok.injEq, Prod.mk.injEq] at h
    obtain ⟨-, h2, h3, -⟩ := h
    subst h2; subst h3
    exact ⟨fun q v hv => hv, fun q v hv => hv⟩
  | cons g rest ih =>
    simp only [loadKeysGo] at h
    cases hep : ensurePaths pp cpub plog [g.opts.PathHostCAPublicKey, g.opts.PathUserCAPublicKey] with
    | error e => rw [hep] at h; cases h
    | ok res1 =>
      obtain ⟨cpub1, plog1⟩ := res1
      rw [hep] at h
      dsimp only at h
      cases hev : ensurePaths pv cpriv vlog [g.opts.PathHostCAPrivateKey, g.opts.PathUserCAPrivateKey] with
      | error e => rw [hev] at h; cases h
      | ok res2 =>
        obtain ⟨cpriv1, vlog1⟩ := res2
        rw [hev] at h
        dsimp only at h
        cases hrec : loadKeysGo pp pv rest cpub1 cpriv1 plog1 vlog1 with
        | error e => rw [hrec] at h; cases h
        | ok res =>
          obtain ⟨rest1, cp1, cv1, lp1, lv1⟩ := res
          rw [hrec] at h
          dsimp only at h
          simp only [Except.ok.injEq, Prod.mk.injEq] at h
          obtain ⟨-, h2, h3, -⟩ := h
          subst h2; subst h3
          rcases ih hrec with ⟨hpub, hpriv⟩
          exact ⟨fun q v hv => hpub q v (ensurePaths_mono hep q v hv),
            fun q v hv => hpriv q v (ensurePaths_mono hev q v hv)⟩

theorem loadKeysGo_slots {PrivK PubK : Type}
    {pp : GoString → Except Unit PubK} {pv : GoString → Except Unit PrivK}
    {groups : List (HostGroup PrivK PubK)} {cpub : KeyCache PubK} {cpriv : KeyCache PrivK}
    {plog vlog : List GoString} {out : List (HostGroup PrivK PubK)}
    {cp : KeyCache PubK} {cv : KeyCache PrivK} {lp lv : List GoString}
    (h : loadKeysGo pp pv groups cpub cpriv plog vlog = .ok (out, cp, cv, lp, lv)) :
    ∀ g ∈ out,
      g.keys.HostCAPublicKey = cacheGet cp g.opts.PathHostCAPublicKey ∧
      g.keys.UserCAPublicKey = cacheGet cp g.opts.PathUserCAPublicKey ∧
      g.keys.HostCAPrivateKey = cacheGet cv g.opts.PathHostCAPrivateKey ∧
      g.keys.UserCAPrivateKey = cacheGet cv g.opts.PathUserCAPrivateKey := by
  induction groups generalizing cpub cpriv plog vlog out cp cv lp lv with
  | nil =>
    simp only [loadKeysGo, Except.ok.injEq, Prod.mk.injEq] at h
    obtain ⟨h1, -⟩ := h
    subst h1
    simp
  | cons g rest ih =>
    simp only [loadKeysGo] at h
    cases hep : ensurePaths pp cpub plog [g.opts.PathHostCAPublicKey, g.opts.PathUserCAPublicKey] with
    | error e => rw [hep] at h; cases h
    | ok res1 =>
      obtain ⟨cpub1, plog1⟩ := res1
      rw [hep] at h
      dsimp only at h
      cases hev : ensurePaths pv cpriv vlog [g.opts.PathHostCAPrivateKey, g.opts.PathUserCAPrivateKey] with
      | error e => rw [hev] at h; cases h
      | ok res2 =>
        obtain ⟨cpriv1, vlog1⟩ := res2
        rw [hev] at h
        dsimp only at h
        cases hrec : loadKeysGo pp pv rest cpub1 cpriv1 plog1 vlog1 with
        | error e => rw [hrec] at h; cases h
        | ok res =>
          obtain ⟨rest1, cp1, cv1, lp1, lv1⟩ := res
          rw [hrec] at h
          dsimp only at h
          simp only [Except.ok.injEq, Prod.mk.injEq] at h
          obtain ⟨hout, h2, h3, -⟩ := h
          subst hout; subst h2; subst h3
          intro g1 hg1
          rcases List.mem_cons.mp hg1 with h1 | h1
          · subst h1
            rcases loadKeysGo_mono hrec with ⟨hpub, hpriv⟩
            rcases ensurePaths_covers hep g.opts.PathHostCAPublicKey (by simp) with ⟨v1, hv1⟩
            rcases ensurePaths_covers hep g.opts.PathUserCAPublicKey (by simp) with ⟨v2, hv2⟩
            rcases ensurePaths_covers hev g.opts.PathHostCAPrivateKey (by simp) with ⟨v3, hv3⟩
            rcases ensurePaths_covers hev g.opts.PathUserCAPrivateKey (by simp) with ⟨v4, hv4⟩
            refine ⟨?_, ?_, ?_, ?_⟩ <;> dsimp only
            · rw [hv1, hpub _ _ hv1]
            · rw [hv2, hpub _ _ hv2]
            · rw [hv3, hpriv _ _ hv3]
            · rw [hv4, hpriv _ _ hv4]
          · exact ih hrec g1 h1

theorem ensurePaths_log_inv {K : Type} {parse : GoString → Except Unit K}
    {c : KeyCache K} {log : List GoString} {ps : List GoString}
    {c' : KeyCache K} {log' : List GoString}
    (h : ensurePaths parse c log ps = .ok (c', log'))
    (hnd : log.Nodup) (hin : ∀ p ∈ log, (cacheGet c p).isSome) :
    log'.Nodup ∧ ∀ p ∈ log', (cacheGet c' p).isSome := by
  induction ps generalizing c log with
  | nil =>
    simp only [ensurePaths, Except.ok.injEq, Prod.mk.injEq] at h
    obtain ⟨h1, h2⟩ := h
    subst h1; subst h2
    exact ⟨hnd, hin⟩
  | cons p ps ih =>
    simp only [ensurePaths] at h
    cases hg : cacheGet c p with
    | some w =>
      rw [hg] at h
      exact ih h hnd hin
    | none =>
      rw [hg] at h
      cases hp : parse p with
      | error e => rw [hp] at h; cases h
      | ok k =>
        rw [hp] at h
        dsimp only at h
        have hnotin : p ∉ log := by
          intro hmem
          have := hin p hmem
          rw [hg] at this
          cases this
        refine ih h ?_ ?_
        · rw [List.nodup_append]
          exact ⟨hnd, List.nodup_singleton _, by
            intro a ha hb
            rcases List.mem_singleton.mp hb with rfl
            exact hnotin ha⟩
        · intro q hq
          rcases List.mem_append.mp hq with h1 | h1
          · cases hv : cacheGet c q with
            | none =>
              have := hin q h1
              rw [hv] at this
              cases this
            | some v =>
              rw [cacheGet_insert_mono hg hv]
              rfl
          · rcases List.mem_singleton.mp h1 with rfl
            rw [cacheGet_cons]
            simp

theorem loadKeysGo_log_inv {PrivK PubK : Type}
    {pp : GoString → Except Unit PubK} {pv : GoString → Except Unit PrivK}
    {groups : List (HostGroup PrivK PubK)} {cpub : KeyCache PubK} {cpriv : KeyCache PrivK}
    {plog vlog : List GoString} {out : List (HostGroup PrivK PubK)}
    {cp : KeyCache PubK} {cv : KeyCache PrivK} {lp lv : List GoString}
    (h : loadKeysGo pp pv groups cpub cpriv plog vlog = .ok (out, cp, cv, lp, lv))
    (hndp : plog.Nodup) (hinp : ∀ p ∈ plog, (cacheGet cpub p).isSome)
    (hndv : vlog.Nodup) (hinv : ∀ p ∈ vlog, (cacheGet cpriv p).isSome) :
    lp.Nodup ∧ lv.Nodup := by
  induction groups generalizing cpub cpriv plog vlog out cp cv lp lv with
  | nil =>
    simp only [loadKeysGo, Except.ok.injEq, Prod.mk.injEq] at h
    obtain ⟨-, -, -, h4, h5⟩ := h
    subst h4; subst h5
    exact ⟨hndp, hndv⟩
  | cons g rest ih =>
    simp only [loadKeysGo] at h
    cases hep : ensurePaths pp cpub plog [g.opts.PathHostCAPublicKey, g.opts.PathUserCAPublicKey] with
    | error e => rw [hep] at h; cases h
    | ok res1 =>
      obtain ⟨cpub1, plog1⟩ := res1
      rw [hep] at h
      dsimp only at h
      cases hev : ensurePaths pv cpriv vlog [g.opts.PathHostCAPrivateKey, g.opts.PathUserCAPrivateKey] with
      | error e => rw [hev] at h; cases h
      | ok res2 =>
        obtain ⟨cpriv1, vlog1⟩ := res2
        rw [hev] at h
        dsimp only at h
        cases hrec : loadKeysGo pp pv rest cpub1 cpriv1 plog1 vlog1 with
        | error e => rw [hrec] at h; cases h
        | ok res =>
          obtain ⟨rest1, cp1, cv1, lp1, lv1⟩ := res
          rw [hrec] at h
          dsimp only at h
          simp only [Except.ok.injEq, Prod.mk.injEq] at h
          obtain ⟨-, -, -, h4, h5⟩ := h
          subst h4; subst h5
          rcases ensurePaths_log_inv hep hndp hinp with ⟨hndp1, hinp1⟩
          rcases ensurePaths_log_inv hev hndv hinv with ⟨hndv1, hinv1⟩
          exact ih hrec hndp1 hinp1 hndv1 hinv1

/-- C5: after a successful `LoadConfig`, any two groups (or two key slots of
one group) configured with the same key-file path hold the same parsed key
handle, for public keys and private keys alike; and within the load, the key
store's parse function is invoked at most once per distinct path (the parse
logs of `loadKeys` are duplicate-free), so equal handles are the one result of
a single parse — identity, not just equality of decoded bytes. -/
theorem key_identity_dedup {PrivK PubK : Type} (file : IniFile)
    (pp : GoString → Except Unit PubK) (pv : GoString → Except Unit PrivK)
    (conf : Config PrivK PubK) (h : LoadConfig PrivK PubK file pp pv = .ok conf) :
    (∀ g1 ∈ conf.HostGroups, ∀ g2 ∈ conf.HostGroups,
      (g1.opts.PathHostCAPublicKey = g2.opts.PathHostCAPublicKey →
        g1.keys.HostCAPublicKey = g2.keys.HostCAPublicKey) ∧
      (g1.opts.PathHostCAPublicKey = g2.opts.PathUserCAPublicKey →
        g1.keys.HostCAPublicKey = g2.keys.UserCAPublicKey) ∧
      (g1.opts.PathUserCAPublicKey = g2.opts.PathHostCAPublicKey →
        g1.keys.UserCAPublicKey = g2.keys.HostCAPublicKey) ∧
      (g1.opts.PathUserCAPublicKey = g2.opts.PathUserCAPublicKey →
        g1.keys.UserCAPublicKey = g2.keys.UserCAPublicKey) ∧
      (g1.opts.PathHostCAPrivateKey = g2.opts.PathHostCAPrivateKey →
        g1.keys.HostCAPrivateKey = g2.keys.HostCAPrivateKey) ∧
      (g1.opts.PathHostCAPrivateKey = g2.opts.PathUserCAPrivateKey →
        g1.keys.HostCAPrivateKey = g2.keys.UserCAPrivateKey) ∧
      (g1.opts.PathUserCAPrivateKey = g2.opts.PathHostCAPrivateKey →
        g1.keys.UserCAPrivateKey = g2.keys.HostCAPrivateKey) ∧
      (g1.opts.PathUserCAPrivateKey = g2.opts.PathUserCAPrivateKey →
        g1.keys.UserCAPrivateKey = g2.keys.UserCAPrivateKey)) ∧
    (∃ groups groups1 cp cv lp lv,
      loadGroups PrivK PubK (mapToOpts (defaultEntries file) zeroOptions) file.sections
        = .ok groups ∧
      loadKeysGo pp pv groups [] [] [] [] = .ok (groups1, cp, cv, lp, lv) ∧
      lp.Nodup ∧ lv.Nodup) := by
  rcases LoadConfig_ok_elim h with ⟨groups, groups1, cp, cv, lp, lv, hlg, hlk, hpv⟩
  have hslots : ∀ g ∈ conf.HostGroups,
      g.keys.HostCAPublicKey = cacheGet cp g.opts.PathHostCAPublicKey ∧
      g.keys.UserCAPublicKey = cacheGet cp g.opts.PathUserCAPublicKey ∧
      g.keys.HostCAPrivateKey = cacheGet cv g.opts.PathHostCAPrivateKey ∧
      g.keys.UserCAPrivateKey = cacheGet cv g.opts.PathUserCAPrivateKey := by
    intro g hg
    rcases parseCertValidities_mem_src hpv g hg with ⟨gk, hgk, hopts, -, -, hkeys⟩
    rcases loadKeysGo_slots hlk gk hgk with ⟨h1, h2, h3, h4⟩
    rw [hopts, hkeys]
    exact ⟨h1, h2, h3, h4⟩
  constructor
  · intro g1 hg1 g2 hg2
    rcases hslots g1 hg1 with ⟨a1, a2, a3, a4⟩
    rcases hslots g2 hg2 with ⟨b1, b2, b3, b4⟩
    refine ⟨?_, ?_, ?_, ?_, ?_, ?_, ?_, ?_⟩ <;> intro heq
    · rw [a1, b1, heq]
    · rw [a1, b2, heq]
    · rw [a2, b1, heq]
    · rw [a2, b2, heq]
    · rw [a3, b3, heq]
    · rw [a3, b4, heq]
    · rw [a4, b3, heq]
    · rw [a4, b4, heq]
  · exact ⟨groups, groups1, cp, cv, lp, lv, hlg, hlk,
      loadKeysGo_log_inv hlk List.nodup_nil (by simp) List.nodup_nil (by simp)⟩

theorem key_identity_dedup_witness :
    ∃ groups groups1 cp cv lp lv,
      loadGroups Nat Nat (mapToOpts (defaultEntries zeroValidityFile) zeroOptions)
        zeroValidityFile.sections = .ok groups ∧
      loadKeysGo constPub constPriv groups [] [] [] [] = .ok (groups1, cp, cv, lp, lv) ∧
      lp.Nodup ∧ lv.Nodup :=
  (key_identity_dedup zeroValidityFile constPub constPriv
    ⟨[{ opts := ⟨gs "/hk", gs "/hp", gs "/uk", gs "/up", gs "0"⟩,
        keys := ⟨some 1, some 0, some 1, some 0⟩,
        CertDuration := 0, Name := gs "grp",
        Hosts := [(gs "example.com", gs "mc.example.com")] }]⟩ (by rfl)).2

theorem certStage_validation {PrivK PubK Cert Signer : Type}
    (env : V1Env PrivK PubK Cert Signer) (keys : Keys PrivK PubK) (pubkey : PubK)
    (token : GoString) :
    ((∃ s, (certStage env keys pubkey token).1.response = .certificate s) →
      .validate true ∈ (certStage env keys pubkey token).2 ∧
      (certStage env keys pubkey token).1.status = statusCreated) ∧
    (.validate false ∈ (certStage env keys pubkey token).2 →
      (certStage env keys pubkey token).1 =
        ⟨statusInternalServerError, .err ERR_INTERNAL_ERROR⟩) := by
  unfold certStage
  cases env.newSignerFromKey keys.UserCAPrivateKey with
  | error e => simp
  | ok signer =>
    dsimp only
    cases env.signCert (env.generateUserCertificate pubkey token) signer with
    | error e => simp
    | ok signed =>
      dsimp only
      by_cases hv : env.validateUserCertificate signed keys.UserCAPublicKey
      · simp [hv]
      · simp only [Bool.not_eq_true] at hv
        simp [hv]

theorem authStage_validation {PrivK PubK Cert Signer : Type}
    (env : V1Env PrivK PubK Cert Signer) (keys : Keys PrivK PubK) (pubkey : PubK)
    (ca token : GoString) :
    ((∃ s, (authStage env keys pubkey ca token).1.response = .certificate s) →
      .validate true ∈ (authStage env keys pubkey ca token).2 ∧
      (authStage env keys pubkey ca token).1.status = statusCreated) ∧
    (.validate false ∈ (authStage env keys pubkey ca token).2 →
      (authStage env keys pubkey ca token).1 =
        ⟨statusInternalServerError, .err ERR_INTERNAL_ERROR⟩) := by
  unfold authStage
  cases env.getUserStatus ca token with
  | error e => simp
  | ok status =>
    by_cases h1 : status.State == StateNotDeployed
    · simp only [h1, if_pos]
      rcases certStage_validation env keys pubkey token with ⟨hc1, hc2⟩
      constructor
      · intro hs
        rcases hc1 hs with ⟨hm, hst⟩
        exact ⟨List.mem_cons_of_mem _ hm, hst⟩
      · intro hm
        rcases List.mem_cons.mp hm with h | h
        · cases h
        · exact hc2 h
    · simp only [h1, Bool.false_eq_true, if_false]
      by_cases h2 : status.State == StateDeployed
      · simp only [h2, if_pos]
        rcases certStage_validation env keys pubkey token with ⟨hc1, hc2⟩
        constructor
        · intro hs
          rcases hc1 hs with ⟨hm, hst⟩
          exact ⟨List.mem_cons_of_mem _ hm, hst⟩
        · intro hm
          rcases List.mem_cons.mp hm with h | h
          · cases h
          · exact hc2 h
      · simp [h2]

/-- C1: `PostHostCertificate` returns a certificate body only on requests
whose post-signing self-validation (`validateUserCertificate` against the
group's user-CA public key) succeeded — such responses carry status 201 — and
on every request where the self-validation runs and fails, the response is the
internal error with status 500 and carries no certificate. -/
theorem certificate_requires_validation {PrivK PubK Cert Signer : Type}
    (env : V1Env PrivK PubK Cert Signer) (conf? : Option (Config PrivK PubK))
    (req : Request) :
    ((∃ s, (postHostCertificate env conf? req).1.response = .certificate s) →
      .validate true ∈ (postHostCertificate env conf? req).2 ∧
      (postHostCertificate env conf? req).1.status = statusCreated) ∧
    (.validate false ∈ (postHostCertificate env conf? req).2 →
      (postHostCertificate env conf? req).1 =
        ⟨statusInternalServerError, .err ERR_INTERNAL_ERROR⟩) := by
  unfold postHostCertificate
  cases req.hostBind with
  | none => simp
  | some host =>
    cases req.bodyBind with
    | none => simp
    | some body =>
      dsimp only
      cases env.parseAuthorizedKey body.Pubkey with
      | error e => simp
      | ok pubkey =>
        cases conf? with
        | none => simp
        | some conf =>
          dsimp only
          cases conf.GetMotleyCueURL host with
          | error e => simp
          | ok ca =>
            cases conf.GetKeys host with
            | error e => simp
            | ok keys => exact authStage_validation env keys pubkey ca body.Token

/-- C3: in `PostHostCertificate`, once the user-status call is made, its
verdict reduces as follows: a transport failure or invalid token yields the
unauthorized error response (no silent allow/deny); a reported state of
`deployed` or `not_deployed` lets issuance proceed to certificate generation;
`suspended` — and any state other than the two allowing ones, i.e. also any
unrecognized state — yields the unauthorized error response without issuing. -/
theorem authorization_reduction {PrivK PubK Cert Signer : Type}
    (env : V1Env PrivK PubK Cert Signer) (keys : Keys PrivK PubK) (pubkey : PubK)
    (ca token : GoString) :
    (env.getUserStatus ca token = .error () →
      authStage env keys pubkey ca token =
        (⟨statusUnauthorized, .err ERR_UNAUTHORIZED⟩, [.getUserStatus])) ∧
    (∀ st, env.getUserStatus ca token = .ok st →
      ((st.State = StateDeployed ∨ st.State = StateNotDeployed) →
        .generateCert ∈ (authStage env keys pubkey ca token).2) ∧
      (st.State = StateSuspended →
        authStage env keys pubkey ca token =
          (⟨statusUnauthorized, .err ERR_UNAUTHORIZED⟩, [.getUserStatus])) ∧
      (st.State ≠ StateDeployed ∧ st.State ≠ StateNotDeployed →
        authStage env keys pubkey ca token =
          (⟨statusUnauthorized, .err ERR_UNAUTHORIZED⟩, [.getUserStatus]))) := by
  constructor
  · intro herr
    unfold authStage
    rw [herr]
  · intro st hst
    unfold authStage
    rw [hst]
    dsimp only
    refine ⟨?_, ?_, ?_⟩
    · rintro (hdep | hnot)
      · have h1 : (st.State == StateNotDeployed) = false ∨
            (st.State == StateNotDeployed) = true := by
          cases st.State == StateNotDeployed <;> simp
        rcases h1 with h1 | h1
        · rw [h1]
          try dsimp only
          rw [show (st.State == StateDeployed) = true by simp [hdep]]
          try dsimp only
          unfold certStage
          cases env.newSignerFromKey keys.UserCAPrivateKey with
          | error e => simp
          | ok signer =>
            dsimp only
            cases env.signCert (env.generateUserCertificate pubkey token) signer with
            | error e => simp
            | ok signed =>
              dsimp only
              cases env.validateUserCertificate signed keys.UserCAPublicKey <;> simp
        · rw [h1]
          try dsimp only
          unfold certStage
          cases env.newSignerFromKey keys.UserCAPrivateKey with
          | error e => simp
          | ok signer =>
            dsimp only
            cases env.signCert (env.generateUserCertificate pubkey token) signer with
            | error e => simp
            | ok signed =>
              dsimp only
              cases env.validateUserCertificate signed keys.UserCAPublicKey <;> simp
      · rw [show (st.State == StateNotDeployed) = true by simp [hnot]]
        try dsimp only
        unfold certStage
        cases env.newSignerFromKey keys.UserCAPrivateKey with
        | error e => simp
        | ok signer =>
          dsimp only
          cases env.signCert (env.generateUserCertificate pubkey token) signer with
          | error e => simp
          | ok signed =>
            dsimp only
            cases env.validateUserCertificate signed keys.UserCAPublicKey <;> simp
    · intro hsusp
      rw [show (st.State == StateNotDeployed) = false by simp [hsusp, StateSuspended, StateNotDeployed, gs]]
      rw [show (st.State == StateDeployed) = false by simp [hsusp, StateSuspended, StateDeployed, gs]]
      simp
    · rintro ⟨hnd, hnn⟩
      rw [show (st.State == StateNotDeployed) = false by simp [hnn]]
      rw [show (st.State == StateDeployed) = false by simp [hnd]]
      simp

/-- A concrete environment whose status endpoint reports `suspended`. -/
def suspendedEnv : V1Env Nat Nat Nat Nat :=
  { parseAuthorizedKey := fun _ => .ok 0
    getUserStatus := fun _ _ => .ok ⟨StateSuspended⟩
    generateUserCertificate := fun _ _ => 0
    newSignerFromKey := fun _ => .ok 0
    signCert := fun c _ => .ok c
    validateUserCertificate := fun _ _ => true
    marshalAuthorizedKey := fun _ => gs "cert" }

/-- Signer construction fails (e.g. an unusable user-CA private key). -/
def signerFailEnv : V1Env Nat Nat Nat Nat :=
  { suspendedEnv with
    getUserStatus := fun _ _ => .ok ⟨StateDeployed⟩
    newSignerFromKey := fun _ => .error () }

/-- The post-signing self-validation fails. -/
def validateFailEnv : V1Env Nat Nat Nat Nat :=
  { suspendedEnv with
    getUserStatus := fun _ _ => .ok ⟨StateDeployed⟩
    validateUserCertificate := fun _ _ => false }

/-- The status endpoint is unreachable (or the token invalid). -/
def authFailEnv : V1Env Nat Nat Nat Nat :=
  { suspendedEnv with getUserStatus := fun _ _ => .error () }

/-- A well-formed request for the sample configuration's host. -/
def sampleReq : Request := ⟨some (gs "example.com"), some ⟨gs "pk", gs "tok"⟩⟩

theorem authorization_reduction_witness :
    authStage suspendedEnv sampleKeys 0 (gs "mc.example.com") (gs "tok") =
      (⟨statusUnauthorized, .err ERR_UNAUTHORIZED⟩, [.getUserStatus]) :=
  ((authorization_reduction suspendedEnv sampleKeys 0 (gs "mc.example.com") (gs "tok")).2
    ⟨StateSuspended⟩ rfl).2.1 rfl

theorem certificate_requires_validation_witness :
    (postHostCertificate validateFailEnv (some sampleConfig) sampleReq).1 =
      ⟨statusInternalServerError, .err ERR_INTERNAL_ERROR⟩ :=
  (certificate_requires_validation validateFailEnv (some sampleConfig) sampleReq).2 (by decide)

/-- C8: whenever every prior step of `PostHostCertificate` succeeds and the
user-status check reports `suspended`, the handler answers with the
unauthorized error and never invokes certificate generation or signing (the
only engine call made is the status check itself). -/
theorem suspended_no_issuance {PrivK PubK Cert Signer : Type}
    (env : V1Env PrivK PubK Cert Signer) (conf : Config PrivK PubK) (req : Request)
    (host : GoString) (body : FormHostCertificate) (pubkey : PubK) (ca : GoString)
    (keys : Keys PrivK PubK)
    (h1 : req.hostBind = some host) (h2 : req.bodyBind = some body)
    (h3 : env.parseAuthorizedKey body.Pubkey = .ok pubkey)
    (h4 : conf.GetMotleyCueURL host = .ok ca)
    (h5 : conf.GetKeys host = .ok keys)
    (h6 : env.getUserStatus ca body.Token = .ok ⟨StateSuspended⟩) :
    postHostCertificate env (some conf) req =
      (⟨statusUnauthorized, .err ERR_UNAUTHORIZED⟩, [.getUserStatus]) ∧
    CAEvent.generateCert ∉ (postHostCertificate env (some conf) req).2 ∧
    CAEvent.newSigner ∉ (postHostCertificate env (some conf) req).2 ∧
    CAEvent.signCert ∉ (postHostCertificate env (some conf) req).2 := by
  have heq : postHostCertificate env (some conf) req =
      (⟨statusUnauthorized, .err ERR_UNAUTHORIZED⟩, [.getUserStatus]) := by
    unfold postHostCertificate
    rw [h1, h2]
    dsimp only
    rw [h3]
    dsimp only
    rw [h4]
    dsimp only
    rw [h5]
    dsimp only
    unfold authStage
    rw [h6]
    dsimp only
    rw [show ((⟨StateSuspended⟩ : UserStatus).State == StateNotDeployed) = false by decide]
    rw [show ((⟨StateSuspended⟩ : UserStatus).State == StateDeployed) = false by decide]
    simp
  refine ⟨heq, ?_, ?_, ?_⟩ <;> rw [heq] <;> decide
theorem suspended_no_issuance_witness :
    postHostCertificate suspendedEnv (some sampleConfig) sampleReq =
      (⟨statusUnauthorized, .err ERR_UNAUTHORIZED⟩, [.getUserStatus]) ∧
    CAEvent.generateCert ∉ (postHostCertificate suspendedEnv (some sampleConfig) sampleReq).2 ∧
    CAEvent.newSigner ∉ (postHostCertificate suspendedEnv (some sampleConfig) sampleReq).2 ∧
    CAEvent.signCert ∉ (postHostCertificate suspendedEnv (some sampleConfig) sampleReq).2 :=
  suspended_no_issuance suspendedEnv sampleConfig sampleReq (gs "example.com")
    ⟨gs "pk", gs "tok"⟩ 0 (gs "mc.example.com") sampleKeys rfl rfl rfl rfl rfl rfl

/-- C9 (documenting the defect): on a signing failure, `PostHostCertificate`
answers with the internal-error message but the *unauthorized* HTTP status
code 401 (`Error(c, http.StatusUnauthorized, ERR_INTERNAL_ERROR)` — where its
own doc comment and the parallel self-validation branch use 500), so a signing
failure is not distinguishable from an authorization failure by status code;
the self-validation failure is answered with status 500, and an authorization
failure with 401 and the unauthorized message. -/
theorem signing_failure_status_code_bug :
    (postHostCertificate signerFailEnv (some sampleConfig) sampleReq).1 =
      ⟨statusUnauthorized, .err ERR_INTERNAL_ERROR⟩ ∧
    (postHostCertificate validateFailEnv (some sampleConfig) sampleReq).1 =
      ⟨statusInternalServerError, .err ERR_INTERNAL_ERROR⟩ ∧
    (postHostCertificate authFailEnv (some sampleConfig) sampleReq).1 =
      ⟨statusUnauthorized, .err ERR_UNAUTHORIZED⟩ ∧
    statusUnauthorized ≠ statusInternalServerError :=
  ⟨rfl, rfl, rfl, by decide⟩
